import Mathlib

/-!
# htnorm: the constrained multivariate-normal transforms of `src/htnorm.c`

A shallow embedding of `htnorm_rand_g_a_vec`, `htnorm_rand` and `htnorm_rand2`.

* A C buffer of doubles is a map from offsets to values (`Buf`).  Arithmetic is exact:
  every double is a rational number.  Division by zero, which IEEE arithmetic answers
  with an infinity or a NaN, is answered with `0` here; every theorem that depends on
  the value of a quotient assumes a non-zero divisor, or compares two runs that divide
  by the same number.
* `size_t` offsets are natural numbers (no offset computed here exceeds the size of a
  buffer that was allocated, so the 64-bit wrap-around never applies).
* `malloc` is modelled by its result: `none` for `NULL`, `some b` for a fresh buffer whose
  uninitialised contents are `b`.
* The random generator is an abstract state `ρ` threaded through the samplers.
* The samplers of `dist.h`, and the Cholesky solve `POSV`, are external collaborators:
  they are fields of the environment `Env`.
* Buffer lifetime and the order of the steps are read off instrumented runs
  (`htnorm_rand_run`, `htnorm_rand2_run`): the same functions, returning in addition the
  list of their events (block acquired, allocation refused, block released, computation
  step).  The instrumented runs are proved to return the results of the plain ones.
* The offsets used by the hand-written loops are listed by index traces
  (`g_a_vec_accesses`, `diag_mat_accesses`, `mean_accesses`), with offsets reduced modulo
  `2^64`.
-/

namespace Htnorm

/-- A flat buffer of doubles, addressed by offset. -/
abbrev Buf := Nat → ℚ

/-- The status `HTNORM_ALLOC_ERROR` of `dist.h`. -/
def HTNORM_ALLOC_ERROR : Int := -100

/-- Modelled from the spec: the type `matrix_t` of `include/htnorm.h`, a flat row-major
buffer of doubles together with its dimensions. -/
structure matrix_t where
  mat : Buf
  nrow : Nat
  ncol : Nat

/-- The aggregate `mvn_output_t` of `dist.h`: two pointers, either of which may be
`NULL` after a partial allocation. -/
structure mvn_output_t where
  v : Option Buf
  cov : Option Buf

/-- The libc call `memcpy(dst, src, n * sizeof(double))`. -/
def memcpy (dst src : Buf) (n : Nat) : Buf :=
  fun k => if k < n then src k else dst k

/-- Modelled from the spec: the macro `GEMV` of `blas.h`, the row-major matrix-vector
product `y ← alpha·A·x + beta·y` with `A` of shape `m×n` and leading dimension `lda`;
element `i` of `y` lives at offset `i * incy`, element `j` of `x` at `j * incx`. -/
def GEMV (m n : Nat) (alpha : ℚ) (a : Buf) (lda : Nat) (x : Buf) (incx : Nat)
    (beta : ℚ) (y : Buf) (incy : Nat) : Buf :=
  fun k =>
    if k % incy = 0 ∧ k / incy < m then
      alpha * (∑ j in Finset.range n, a (k / incy * lda + j) * x (j * incx)) + beta * y k
    else y k

/-- Modelled from the spec: the macro `GEMM` of `blas.h`, the row-major matrix-matrix
product `C ← alpha·A·B + beta·C` with `A` of shape `m×k`, `B` of shape `k×n`, neither
transposed. -/
def GEMM (m n k : Nat) (alpha : ℚ) (a : Buf) (lda : Nat) (b : Buf) (ldb : Nat)
    (beta : ℚ) (c : Buf) (ldc : Nat) : Buf :=
  fun t =>
    if t / ldc < m ∧ t % ldc < n then
      alpha * (∑ l in Finset.range k, a (t / ldc * lda + l) * b (l * ldb + t % ldc))
        + beta * c t
    else c t

/-- Modelled from the spec: the macro `GEMM_NT` of `blas.h`, the row-major product
`C ← alpha·A·Bᵀ + beta·C` with `A` of shape `m×k` not transposed and `B` of shape `n×k`
transposed. -/
def GEMM_NT (m n k : Nat) (alpha : ℚ) (a : Buf) (lda : Nat) (b : Buf) (ldb : Nat)
    (beta : ℚ) (c : Buf) (ldc : Nat) : Buf :=
  fun t =>
    if t / ldc < m ∧ t % ldc < n then
      alpha * (∑ l in Finset.range k, a (t / ldc * lda + l) * b (t % ldc * ldb + l))
        + beta * c t
    else c t

/-- Entry `(i, j)` of the symmetric matrix that one stored triangle of the row-major
buffer `a` (leading dimension `lda`) defines: the upper triangle when `upper` is set,
the lower one otherwise. -/
def symTri (upper : Bool) (a : Buf) (lda : Nat) (i j : Nat) : ℚ :=
  if upper then (if i ≤ j then a (i * lda + j) else a (j * lda + i))
  else (if j ≤ i then a (i * lda + j) else a (j * lda + i))

/-- Modelled from the spec: the macro `SYMV` of `blas.h`, the symmetric matrix-vector
product `y ← alpha·A·x + beta·y` in which only one triangle of `A` is read. -/
def SYMV (upper : Bool) (n : Nat) (alpha : ℚ) (a : Buf) (lda : Nat) (x : Buf) (incx : Nat)
    (beta : ℚ) (y : Buf) (incy : Nat) : Buf :=
  fun k =>
    if k % incy = 0 ∧ k / incy < n then
      alpha * (∑ j in Finset.range n, symTri upper a lda (k / incy) j * x (j * incx))
        + beta * y k
    else y k

/-- The external collaborators of `htnorm.c`.

* `symv_upper`: the triangle of `cov` that the missing macro `SYMV` reads.
* `mv_normal_rand rng mean mat nrow diag out`: the sampler of `dist.h`; returns the
  status, the buffer `out` as the sampler left it, and the generator state.
* `mv_normal_rand_prec rng prec nrow diag v cov full_inv`: the precision-parameterized
  sampler of `dist.h`, writing the two buffers of its `mvn_output_t` argument.
* `POSV n nrhs a lda b ldb`: the Cholesky solve behind the missing macro `POSV`; returns
  the status, the overwritten matrix and the overwritten right-hand side. -/
structure Env (ρ : Type) where
  symv_upper : Bool
  mv_normal_rand : ρ → Buf → Buf → Nat → Bool → Buf → Int × Buf × ρ
  mv_normal_rand_prec : ρ → Buf → Nat → Bool → Buf → Buf → Bool → Int × Buf × Buf × ρ
  POSV : Nat → Nat → Buf → Nat → Buf → Nat → Int × Buf × Buf

/-- The loop `for (i = n; i--; ) acc += g[i] * x[i];` entered with counter `i`. -/
def dotLoop (g x : Buf) : Nat → ℚ → ℚ
  | 0, acc => acc
  | i + 1, acc => dotLoop g x i (acc + g i * x i)

/-- The loop `for (i = ncol; i--; ) cov_g[i] = cov[ncol * i + i] * g[i];` entered with
counter `i` (`htnorm_rand_g_a_vec`, diagonal case). -/
def diagVecLoop (cov : Buf) (ncol : Nat) (g : Buf) : Nat → Buf → Buf
  | 0, cov_g => cov_g
  | i + 1, cov_g =>
      diagVecLoop cov ncol g i (Function.update cov_g i (cov (ncol * i + i) * g i))

/-- The step `compute: cov * g^T` of `htnorm_rand_g_a_vec`. -/
def vec_cov_g (upper : Bool) (cov : Buf) (ncol : Nat) (diag : Bool) (g : Buf)
    (cov_g : Buf) : Buf :=
  if diag then diagVecLoop cov ncol g ncol cov_g
  else SYMV upper ncol 1 cov ncol g 1 0 cov_g 1

/-- The last loop of `htnorm_rand_g_a_vec`, entered with counter `i`:
`g_cov_g = 0; for (j = ncol; j--; ) g_cov_g += g[j] * cov_g[j];`
`out[i] += alpha * (cov_g[i] / g_cov_g);`. -/
def corrLoop (alpha : ℚ) (g cov_g : Buf) (ncol : Nat) : Nat → Buf → Buf
  | 0, out => out
  | i + 1, out =>
      let g_cov_g := dotLoop g cov_g ncol 0
      corrLoop alpha g cov_g ncol i
        (Function.update out i (out i + alpha * (cov_g i / g_cov_g)))

/-- The function `htnorm_rand_g_a_vec`; `cov_g` is the result of its `malloc`. -/
def htnorm_rand_g_a_vec (upper : Bool) (cov_g : Option Buf) (cov : Buf) (ncol : Nat)
    (diag : Bool) (g : Buf) (r : ℚ) (out : Buf) : Int × Buf :=
  match cov_g with
  | none => (HTNORM_ALLOC_ERROR, out)
  | some cov_g =>
      let alpha := dotLoop g out ncol 0
      let alpha := r - alpha
      let cov_g := vec_cov_g upper cov ncol diag g cov_g
      let out := corrLoop alpha g cov_g ncol ncol out
      (0, out)

/-- The loops `for (i = 0; i < gncol; i++) for (j = 0; j < gnrow; j++)`
`cov_g[gnrow * i + j] = cmat[gncol * i + i] * gmat[gncol * j + i];` of `htnorm_rand`. -/
def diagMatLoop (cmat gmat : Buf) (gnrow gncol : Nat) (cov_g : Buf) : Buf :=
  (List.range gncol).foldl
    (fun cov_g i =>
      (List.range gnrow).foldl
        (fun cov_g j =>
          Function.update cov_g (gnrow * i + j) (cmat (gncol * i + i) * gmat (gncol * j + i)))
        cov_g)
    cov_g

/-- The step `compute: cov * g^T` of `htnorm_rand`. -/
def mat_cov_g (cmat : Buf) (diag : Bool) (gmat : Buf) (gnrow gncol : Nat)
    (cov_g : Buf) : Buf :=
  if diag then diagMatLoop cmat gmat gnrow gncol cov_g
  else GEMM_NT gncol gnrow gncol 1 cmat gncol gmat gncol 0 cov_g gnrow

/-- The right-hand side `r - g*y` that `htnorm_rand` hands to `POSV`. -/
def rand_gy (gmat : Buf) (gnrow gncol : Nat) (r out gy : Buf) : Buf :=
  GEMV gnrow gncol (-1) gmat gncol out 1 1 (memcpy gy r gnrow) 1

/-- The matrix `g * cov * g^T` that `htnorm_rand` hands to `POSV`. -/
def rand_g_cov_g (gmat : Buf) (gnrow gncol : Nat) (cov_g g_cov_g : Buf) : Buf :=
  GEMM gnrow gnrow gncol 1 gmat gncol cov_g gnrow 0 g_cov_g gnrow

/-- Lines 71 to 114 of `htnorm_rand`: the path taken when `g` does not have exactly one
row.  `gy`, `cov_g` and `g_cov_g` are the results of the three calls of `malloc`. -/
def htnorm_rand_general {ρ : Type} (E : Env ρ) (gy cov_g g_cov_g : Option Buf)
    (cmat : Buf) (diag : Bool) (gmat : Buf) (gnrow gncol : Nat) (r out : Buf) :
    Int × Buf :=
  match gy with
  | none => (HTNORM_ALLOC_ERROR, out)
  | some gy =>
    match cov_g with
    | none => (HTNORM_ALLOC_ERROR, out)
    | some cov_g =>
      match g_cov_g with
      | none => (HTNORM_ALLOC_ERROR, out)
      | some g_cov_g =>
          let gy := rand_gy gmat gnrow gncol r out gy
          let cov_g := mat_cov_g cmat diag gmat gnrow gncol cov_g
          let g_cov_g := rand_g_cov_g gmat gnrow gncol cov_g g_cov_g
          let s := E.POSV gnrow 1 g_cov_g gnrow gy 1
          if s.1 = 0 then
            (s.1, GEMV gncol gnrow 1 cov_g gnrow s.2.2 1 1 out 1)
          else (s.1, out)

/-- The function `htnorm_rand`.  `gy`, `cov_g`, `g_cov_g` are the results of the calls
of `malloc` (the single-row path performs only the one for `cov_g`).  Returns the
status, the buffer `out` and the generator state. -/
def htnorm_rand {ρ : Type} (E : Env ρ) (gy cov_g g_cov_g : Option Buf) (rng : ρ)
    (mean : Buf) (cov : matrix_t) (diag : Bool) (g : matrix_t) (r out : Buf) :
    Int × Buf × ρ :=
  let gncol := g.ncol
  let gnrow := g.nrow
  let gmat := g.mat
  let cmat := cov.mat
  let d := E.mv_normal_rand rng mean cmat gncol diag out
  if d.1 ≠ 0 then (d.1, d.2.1, d.2.2)
  else if gnrow = 1 then
    let s := htnorm_rand_g_a_vec E.symv_upper cov_g cmat gncol diag gmat (r 0) d.2.1
    (s.1, s.2, d.2.2)
  else
    let s := htnorm_rand_general E gy cov_g g_cov_g cmat diag gmat gnrow gncol r d.2.1
    (s.1, s.2, d.2.2)

/-- The step `compute: x = A_inv * phi^T` of `htnorm_rand2`, as coded. -/
def rand2_x (amat pmat : Buf) (pnrow pncol : Nat) (x : Buf) : Buf :=
  GEMM_NT pncol pnrow pncol 1 amat pncol pmat pncol 0 x pnrow

/-- The step `compute: phi * A_inv * phi^T + omega_inv` of `htnorm_rand2`: the matrix
handed to `POSV`, accumulated onto the buffer `y2->cov`. -/
def rand2_sys (pmat : Buf) (pnrow pncol : Nat) (x cov2 : Buf) : Buf :=
  GEMM pnrow pnrow pncol 1 pmat pncol x pnrow 1 cov2 pnrow

/-- The step `compute: phi * y1 + y2` of `htnorm_rand2`: the right-hand side handed to
`POSV`, accumulated onto the buffer `y2->v`. -/
def rand2_rhs (pmat : Buf) (pnrow pncol : Nat) (v1 v2 : Buf) : Buf :=
  GEMV pnrow pncol 1 pmat pncol v1 1 1 v2 1

/-- The loop `for (i = pncol; i--; ) out[i] = y1->v[i] + mean[i];` entered with
counter `i`. -/
def meanLoop (v mean : Buf) : Nat → Buf → Buf
  | 0, out => out
  | i + 1, out => meanLoop v mean i (Function.update out i (v i + mean i))

/-- The function `htnorm_rand2`.  `y1`, `y2` are the results of the two calls of
`mvn_output_new`, `x` the result of `malloc`.  Returns the status, the buffer `out` and
the generator state. -/
def htnorm_rand2 {ρ : Type} (E : Env ρ) (y1 y2 : Option mvn_output_t) (x : Option Buf)
    (rng : ρ) (mean : Buf) (a : matrix_t) (a_diag : Bool) (phi omega : matrix_t)
    (o_diag : Bool) (out : Buf) : Int × Buf × ρ :=
  let pnrow := phi.nrow
  let pncol := phi.ncol
  let pmat := phi.mat
  let amat := a.mat
  match y1 with
  | some ⟨some v1, some c1⟩ =>
    match y2 with
    | some ⟨some v2, some c2⟩ =>
        let d1 := E.mv_normal_rand_prec rng amat pncol a_diag v1 c1 false
        if d1.1 ≠ 0 then (d1.1, out, d1.2.2.2)
        else
          let d2 := E.mv_normal_rand_prec d1.2.2.2 omega.mat pnrow o_diag v2 c2 true
          if d2.1 ≠ 0 then (d2.1, out, d2.2.2.2)
          else
            match x with
            | none => (HTNORM_ALLOC_ERROR, out, d2.2.2.2)
            | some x =>
                let x := rand2_x amat pmat pnrow pncol x
                let cov2 := rand2_sys pmat pnrow pncol x d2.2.2.1
                let v2 := rand2_rhs pmat pnrow pncol d1.2.1 d2.2.1
                let out := meanLoop d1.2.1 mean pncol out
                let s := E.POSV pnrow 1 cov2 pnrow v2 1
                if s.1 = 0 then
                  (s.1, GEMV pncol pnrow (-1) x pnrow s.2.2 1 1 out 1, d2.2.2.2)
                else (s.1, out, d2.2.2.2)
    | _ => (HTNORM_ALLOC_ERROR, out, rng)
  | _ => (HTNORM_ALLOC_ERROR, out, rng)

/-- The scalar `g_cov_g` that the last loop of `htnorm_rand_g_a_vec` computes and divides
by: the dot product of `g` with the computed `cov_g`. -/
def vec_g_cov_g (upper : Bool) (cov : Buf) (ncol : Nat) (diag : Bool) (g : Buf)
    (cov_g : Buf) : ℚ :=
  dotLoop g (vec_cov_g upper cov ncol diag g cov_g) ncol 0

/-! ## Predicates on row-major buffers -/

/-- The `n×n` matrix stored row-major in `a` is symmetric. -/
def IsSymm (a : Buf) (n : Nat) : Prop :=
  ∀ i < n, ∀ j < n, a (i * n + j) = a (j * n + i)

instance (a : Buf) (n : Nat) : Decidable (IsSymm a n) := by
  unfold IsSymm; infer_instance

/-- Every off-diagonal entry of the `n×n` matrix stored row-major in `a` is zero. -/
def IsDiagonal (a : Buf) (n : Nat) : Prop :=
  ∀ i < n, ∀ j < n, i ≠ j → a (i * n + j) = 0

instance (a : Buf) (n : Nat) : Decidable (IsDiagonal a n) := by
  unfold IsDiagonal; infer_instance

/-- The two `n×n` buffers agree on their `n` diagonal entries. -/
def SameDiag (a b : Buf) (n : Nat) : Prop :=
  ∀ i < n, a (n * i + i) = b (n * i + i)

instance (a b : Buf) (n : Nat) : Decidable (SameDiag a b n) := by
  unfold SameDiag; infer_instance

/-- The `n×n` matrix stored row-major in `a` is positive definite: its quadratic form is
positive at every vector with a non-zero component among the first `n`. -/
def IsPosDef (a : Buf) (n : Nat) : Prop :=
  ∀ x : Buf, (∃ i < n, x i ≠ 0) →
    0 < ∑ i in Finset.range n, ∑ j in Finset.range n, x i * a (i * n + j) * x j

/-- The vector `x` is an exact solution of the `n×n` system whose matrix is the symmetric
matrix defined by the upper triangle of `a` (the triangle `POSV` is asked to use) and
whose right-hand side is `b`. -/
def SolvesUpper (a : Buf) (n : Nat) (b x : Buf) : Prop :=
  ∀ i < n, ∑ j in Finset.range n, symTri true a n i j * x j = b i

instance (a : Buf) (n : Nat) (b x : Buf) : Decidable (SolvesUpper a n b x) := by
  unfold SolvesUpper; infer_instance

/-- The `m×n` matrix stored row-major in `g` has full row rank: no non-zero combination
of its `m` rows vanishes. -/
def FullRowRank (g : Buf) (m n : Nat) : Prop :=
  ∀ x : Buf, (∃ a < m, x a ≠ 0) →
    ∃ i < n, ∑ a in Finset.range m, x a * g (a * n + i) ≠ 0

/-! ## Concrete data for the worked instances -/

/-- The buffer holding the list `l`, zero beyond its end. -/
def ofList (l : List ℚ) : Buf := fun k => l.getD k 0

/-- A sampler that always succeeds and leaves the draw `y` in `out`. -/
def constDraw (y : Buf) : Unit → Buf → Buf → Nat → Bool → Buf → Int × Buf × Unit :=
  fun _ _ _ _ _ _ => (0, y, ())

/-- A precision-parameterized sampler that always succeeds, leaving `v1`, `c1` in an
aggregate of dimension `n1` and `v2`, `c2` in any other. -/
def constPrec (n1 : Nat) (v1 c1 v2 c2 : Buf) :
    Unit → Buf → Nat → Bool → Buf → Buf → Bool → Int × Buf × Buf × Unit :=
  fun _ _ n _ _ _ _ => if n = n1 then (0, v1, c1, ()) else (0, v2, c2, ())

/-- A solver that reports success and returns the right-hand side as the solution (exact
when the system matrix is the identity). -/
def idSolve : Nat → Nat → Buf → Nat → Buf → Nat → Int × Buf × Buf :=
  fun _ _ a _ b _ => (0, a, b)

/-- A solver for systems of one equation: `b[0] / a[0]`, failing with status `1` when the
pivot is not positive. -/
def solve1 : Nat → Nat → Buf → Nat → Buf → Nat → Int × Buf × Buf :=
  fun _ _ a _ b _ => if 0 < a 0 then (0, a, Function.update b 0 (b 0 / a 0)) else (1, a, b)

/-- An environment over a trivial generator state. -/
def exEnv (y : Buf) (posv : Nat → Nat → Buf → Nat → Buf → Nat → Int × Buf × Buf) :
    Env Unit :=
  { symv_upper := true
    mv_normal_rand := constDraw y
    mv_normal_rand_prec := constPrec 0 y y y y
    POSV := posv }

/-- An environment for `htnorm_rand2` over a trivial generator state: the first draw
(dimension `n1`) leaves `v1`, `c1`, the second leaves `v2`, `c2`. -/
def exEnv2 (n1 : Nat) (v1 c1 v2 c2 : Buf)
    (posv : Nat → Nat → Buf → Nat → Buf → Nat → Int × Buf × Buf) : Env Unit :=
  { symv_upper := true
    mv_normal_rand := constDraw v1
    mv_normal_rand_prec := constPrec n1 v1 c1 v2 c2
    POSV := posv }

/-- The `n×n` matrix `b` is a right inverse of the `n×n` matrix `a` (both row-major):
`a·b` is the identity. -/
def IsInverse (b a : Buf) (n : Nat) : Prop :=
  ∀ i < n, ∀ j < n,
    ∑ l in Finset.range n, a (i * n + l) * b (l * n + j) = if i = j then 1 else 0

instance (b a : Buf) (n : Nat) : Decidable (IsInverse b a n) := by
  unfold IsInverse; infer_instance

/-! ## Instrumented runs: heap blocks, events and index traces -/

/-- The heap blocks the entry points acquire: the scratch buffers `gy`, `cov_g`, `g_cov_g`
of `htnorm_rand` (the single-row path acquires `cov_g` only), and the buffer `x` and the
aggregates `y1`, `y2` of `htnorm_rand2`. -/
inductive Blk
  | gy | cov_g | g_cov_g | x | y1 | y2
  deriving DecidableEq

/-- The computation steps of the entry points: the two samplers, the library calls and
the hand-written loops. -/
inductive Step
  | mv_normal_rand | mv_normal_rand_prec | memcpy | GEMV | GEMM | GEMM_NT | SYMV | POSV | loop
  deriving DecidableEq

/-- One observable event of a run: a block acquired, an allocation refused (`NULL`), a
block released, or a computation step. -/
inductive Ev
  | alloc (b : Blk)
  | allocFail (b : Blk)
  | free (b : Blk)
  | step (s : Step)
  deriving DecidableEq

/-- Modelled from the spec: the events of `mvn_output_new` of `dist.c`, which allocates the
aggregate and its two buffers.  The aggregate is live as soon as the struct itself is
allocated; a `NULL` struct or a `NULL` member is a refused allocation. -/
def mvn_output_new_events (b : Blk) (y : Option mvn_output_t) : List Ev :=
  match y with
  | none => [Ev.allocFail b]
  | some ⟨some _, some _⟩ => [Ev.alloc b]
  | some _ => [Ev.alloc b, Ev.allocFail b]

/-- Modelled from the spec: the events of `mvn_output_free` of `dist.c`, which releases an
aggregate together with whichever of its buffers were allocated, and does nothing on
`NULL`. -/
def mvn_output_free_events (b : Blk) (y : Option mvn_output_t) : List Ev :=
  match y with
  | none => []
  | some _ => [Ev.free b]

/-- The function `htnorm_rand_g_a_vec` together with the events of its run. -/
def htnorm_rand_g_a_vec_run (upper : Bool) (cov_g : Option Buf) (cov : Buf) (ncol : Nat)
    (diag : Bool) (g : Buf) (r : ℚ) (out : Buf) : (Int × Buf) × List Ev :=
  match cov_g with
  | none => ((HTNORM_ALLOC_ERROR, out), [Ev.allocFail Blk.cov_g])
  | some cov_g =>
      let alpha := dotLoop g out ncol 0
      let alpha := r - alpha
      let cov_g := vec_cov_g upper cov ncol diag g cov_g
      let out := corrLoop alpha g cov_g ncol ncol out
      ((0, out),
        [Ev.alloc Blk.cov_g, Ev.step Step.loop,
          Ev.step (if diag then Step.loop else Step.SYMV), Ev.step Step.loop,
          Ev.free Blk.cov_g])

/-- Lines 71 to 114 of `htnorm_rand` together with the events of their run. -/
def htnorm_rand_general_run {ρ : Type} (E : Env ρ) (gy cov_g g_cov_g : Option Buf)
    (cmat : Buf) (diag : Bool) (gmat : Buf) (gnrow gncol : Nat) (r out : Buf) :
    (Int × Buf) × List Ev :=
  match gy with
  | none => ((HTNORM_ALLOC_ERROR, out), [Ev.allocFail Blk.gy])
  | some gy =>
    match cov_g with
    | none =>
        ((HTNORM_ALLOC_ERROR, out),
          [Ev.alloc Blk.gy, Ev.allocFail Blk.cov_g, Ev.free Blk.gy])
    | some cov_g =>
      match g_cov_g with
      | none =>
          ((HTNORM_ALLOC_ERROR, out),
            [Ev.alloc Blk.gy, Ev.alloc Blk.cov_g, Ev.allocFail Blk.g_cov_g,
              Ev.free Blk.cov_g, Ev.free Blk.gy])
      | some g_cov_g =>
          let gy := rand_gy gmat gnrow gncol r out gy
          let cov_g := mat_cov_g cmat diag gmat gnrow gncol cov_g
          let g_cov_g := rand_g_cov_g gmat gnrow gncol cov_g g_cov_g
          let s := E.POSV gnrow 1 g_cov_g gnrow gy 1
          let before :=
            [Ev.alloc Blk.gy, Ev.alloc Blk.cov_g, Ev.alloc Blk.g_cov_g,
              Ev.step Step.memcpy, Ev.step Step.GEMV,
              Ev.step (if diag then Step.loop else Step.GEMM_NT), Ev.step Step.GEMM,
              Ev.step Step.POSV]
          let cleanup := [Ev.free Blk.g_cov_g, Ev.free Blk.cov_g, Ev.free Blk.gy]
          if s.1 = 0 then
            ((s.1, GEMV gncol gnrow 1 cov_g gnrow s.2.2 1 1 out 1),
              before ++ [Ev.step Step.GEMV] ++ cleanup)
          else ((s.1, out), before ++ cleanup)

/-- The function `htnorm_rand` together with the events of its run. -/
def htnorm_rand_run {ρ : Type} (E : Env ρ) (gy cov_g g_cov_g : Option Buf) (rng : ρ)
    (mean : Buf) (cov : matrix_t) (diag : Bool) (g : matrix_t) (r out : Buf) :
    (Int × Buf × ρ) × List Ev :=
  let gncol := g.ncol
  let gnrow := g.nrow
  let gmat := g.mat
  let cmat := cov.mat
  let d := E.mv_normal_rand rng mean cmat gncol diag out
  if d.1 ≠ 0 then ((d.1, d.2.1, d.2.2), [Ev.step Step.mv_normal_rand])
  else if gnrow = 1 then
    let s := htnorm_rand_g_a_vec_run E.symv_upper cov_g cmat gncol diag gmat (r 0) d.2.1
    ((s.1.1, s.1.2, d.2.2), Ev.step Step.mv_normal_rand :: s.2)
  else
    let s := htnorm_rand_general_run E gy cov_g g_cov_g cmat diag gmat gnrow gncol r d.2.1
    ((s.1.1, s.1.2, d.2.2), Ev.step Step.mv_normal_rand :: s.2)

/-- The function `htnorm_rand2` together with the events of its run. -/
def htnorm_rand2_run {ρ : Type} (E : Env ρ) (y1 y2 : Option mvn_output_t) (x : Option Buf)
    (rng : ρ) (mean : Buf) (a : matrix_t) (a_diag : Bool) (phi omega : matrix_t)
    (o_diag : Bool) (out : Buf) : (Int × Buf × ρ) × List Ev :=
  let pnrow := phi.nrow
  let pncol := phi.ncol
  let pmat := phi.mat
  let amat := a.mat
  match y1 with
  | some ⟨some v1, some c1⟩ =>
    match y2 with
    | some ⟨some v2, some c2⟩ =>
        let cleanup := mvn_output_free_events Blk.y2 y2 ++ mvn_output_free_events Blk.y1 y1
        let news := mvn_output_new_events Blk.y1 y1 ++ mvn_output_new_events Blk.y2 y2
        let d1 := E.mv_normal_rand_prec rng amat pncol a_diag v1 c1 false
        if d1.1 ≠ 0 then
          ((d1.1, out, d1.2.2.2), news ++ [Ev.step Step.mv_normal_rand_prec] ++ cleanup)
        else
          let d2 := E.mv_normal_rand_prec d1.2.2.2 omega.mat pnrow o_diag v2 c2 true
          let draws := [Ev.step Step.mv_normal_rand_prec, Ev.step Step.mv_normal_rand_prec]
          if d2.1 ≠ 0 then ((d2.1, out, d2.2.2.2), news ++ draws ++ cleanup)
          else
            match x with
            | none =>
                ((HTNORM_ALLOC_ERROR, out, d2.2.2.2),
                  news ++ draws ++ [Ev.allocFail Blk.x] ++ cleanup)
            | some x =>
                let x := rand2_x amat pmat pnrow pncol x
                let cov2 := rand2_sys pmat pnrow pncol x d2.2.2.1
                let v2 := rand2_rhs pmat pnrow pncol d1.2.1 d2.2.1
                let out := meanLoop d1.2.1 mean pncol out
                let s := E.POSV pnrow 1 cov2 pnrow v2 1
                let before :=
                  news ++ draws ++
                    [Ev.alloc Blk.x, Ev.step Step.GEMM_NT, Ev.step Step.GEMM,
                      Ev.step Step.GEMV, Ev.step Step.loop, Ev.step Step.POSV]
                if s.1 = 0 then
                  ((s.1, GEMV pncol pnrow (-1) x pnrow s.2.2 1 1 out 1, d2.2.2.2),
                    before ++ [Ev.step Step.GEMV] ++ [Ev.free Blk.x] ++ cleanup)
                else ((s.1, out, d2.2.2.2), before ++ [Ev.free Blk.x] ++ cleanup)
    | _ =>
        ((HTNORM_ALLOC_ERROR, out, rng),
          mvn_output_new_events Blk.y1 y1 ++ mvn_output_new_events Blk.y2 y2
            ++ mvn_output_free_events Blk.y2 y2 ++ mvn_output_free_events Blk.y1 y1)
  | _ =>
      ((HTNORM_ALLOC_ERROR, out, rng),
        mvn_output_new_events Blk.y1 y1 ++ mvn_output_free_events Blk.y1 y1)

/-- The effect of one event on the list of live blocks; `none` when the event acquires a
block that is already live or releases one that is not. -/
def heapStep (h : List Blk) : Ev → Option (List Blk)
  | Ev.alloc b => if b ∈ h then none else some (b :: h)
  | Ev.free b => if b ∈ h then some (h.erase b) else none
  | _ => some h

/-- The live blocks after a run of events, starting from the live blocks `h`. -/
def heapRun : List Ev → List Blk → Option (List Blk)
  | [], h => some h
  | e :: es, h =>
      match heapStep h e with
      | none => none
      | some h1 => heapRun es h1

/-- The blocks acquired by a run, in order. -/
def allocsOf (es : List Ev) : List Blk :=
  es.filterMap (fun e => match e with
    | Ev.alloc b => some b
    | _ => none)

/-- The blocks released by a run, in order. -/
def freesOf (es : List Ev) : List Blk :=
  es.filterMap (fun e => match e with
    | Ev.free b => some b
    | _ => none)

/-- Some allocation of the run was refused. -/
def hasAllocFail (es : List Ev) : Bool :=
  es.any (fun e => match e with
    | Ev.allocFail _ => true
    | _ => false)

/-- The number of computation steps in a run. -/
def stepCount (es : List Ev) : Nat :=
  es.countP (fun e => match e with
    | Ev.step _ => true
    | _ => false)

/-- No computation step follows a refused allocation. -/
def noStepAfterFail : List Ev → Bool
  | [] => true
  | Ev.allocFail _ :: es => stepCount es == 0
  | _ :: es => noStepAfterFail es

/-- Both buffers of the aggregate returned by `mvn_output_new` are allocated: the test
`y == NULL || y->v == NULL || y->cov == NULL` of `htnorm_rand2` is false. -/
def mvnAllocated (y : Option mvn_output_t) : Bool :=
  match y with
  | some ⟨some _, some _⟩ => true
  | _ => false

/-- An environment whose unconstrained sampler returns status `s` and leaves `y` in `out`,
whose precision-parameterized sampler returns status `s1`, `v1`, `c1` on the draw with
`full_inv` unset and status `s2`, `v2`, `c2` on the draw with `full_inv` set. -/
def statusEnv (s : Int) (y : Buf) (s1 : Int) (v1 c1 : Buf) (s2 : Int) (v2 c2 : Buf)
    (posv : Nat → Nat → Buf → Nat → Buf → Nat → Int × Buf × Buf) : Env Unit :=
  { symv_upper := true
    mv_normal_rand := fun _ _ _ _ _ _ => (s, y, ())
    mv_normal_rand_prec := fun _ _ _ _ _ _ full_inv =>
      if full_inv then (s2, v2, c2, ()) else (s1, v1, c1, ())
    POSV := posv }

/-- A solver that always reports the failure status `2` and leaves its arguments as they
were. -/
def failSolve : Nat → Nat → Buf → Nat → Buf → Nat → Int × Buf × Buf :=
  fun _ _ a _ b _ => (2, a, b)

/-! ## Index traces of the hand-written loops -/

/-- The arrays the hand-written loops index. -/
inductive Arr
  | cov | g | mean | out | cov_g | y1_v
  deriving DecidableEq

/-- The values of the counter with which the body of `for (i = n; i--; )` runs, in
order: the test reads `i` and then decrements it, so the body sees `n - 1`, ..., `0`. -/
def descIdx : Nat → List Nat
  | 0 => []
  | i + 1 => i :: descIdx i

/-- A value of type `size_t`: offsets are computed modulo `2^64`. -/
def size_t (x : Nat) : Nat := x % 2 ^ 64

/-- The array accesses of the loops of `htnorm_rand_g_a_vec`, in program order: the dot
product `g[i] * out[i]`, the diagonal scaling `cov_g[i] = cov[ncol * i + i] * g[i]` when
`diag` is set, and the correction loop with its inner dot product. -/
def g_a_vec_accesses (ncol : Nat) (diag : Bool) : List (Arr × Nat) :=
  (descIdx ncol).flatMap (fun i => [(Arr.g, i), (Arr.out, i)]) ++
  (if diag then
    (descIdx ncol).flatMap
      (fun i => [(Arr.cov, size_t (ncol * i + i)), (Arr.g, i), (Arr.cov_g, i)])
   else []) ++
  (descIdx ncol).flatMap
    (fun i =>
      (descIdx ncol).flatMap (fun j => [(Arr.g, j), (Arr.cov_g, j)]) ++
        [(Arr.cov_g, i), (Arr.out, i)])

/-- The array accesses of the diagonal loops of `htnorm_rand`:
`cov_g[gnrow * i + j] = cmat[gncol * i + i] * gmat[gncol * j + i]`. -/
def diag_mat_accesses (gnrow gncol : Nat) : List (Arr × Nat) :=
  (List.range gncol).flatMap
    (fun i =>
      (List.range gnrow).flatMap
        (fun j =>
          [(Arr.cov, size_t (gncol * i + i)), (Arr.g, size_t (gncol * j + i)),
            (Arr.cov_g, size_t (gnrow * i + j))]))

/-- The array accesses of the loop `out[i] = y1->v[i] + mean[i]` of `htnorm_rand2`. -/
def mean_accesses (pncol : Nat) : List (Arr × Nat) :=
  (descIdx pncol).flatMap (fun i => [(Arr.y1_v, i), (Arr.mean, i), (Arr.out, i)])

/-- The lengths of the buffers in a call of `htnorm_rand` with `g` of shape `m×n`: `cov`
has `n·n` entries, `g` has `m·n`, `mean` and `out` have `n`, and the scratch buffer
`cov_g` has the `m·n` entries it was allocated with (`n` on the single-row path, where
`m = 1`). -/
def randLen (m n : Nat) : Arr → Nat
  | Arr.cov => n * n
  | Arr.g => m * n
  | Arr.mean => n
  | Arr.out => n
  | Arr.cov_g => m * n
  | Arr.y1_v => 0

/-- The lengths of the buffers of the loop of `htnorm_rand2`: `mean`, `out` and `y1->v`
have `pncol` entries. -/
def rand2Len (pncol : Nat) : Arr → Nat
  | Arr.mean => pncol
  | Arr.out => pncol
  | Arr.y1_v => pncol
  | _ => 0

/-! ## Closed forms of the loops -/

theorem dotLoop_eq (g x : Buf) (i : Nat) (acc : ℚ) :
    dotLoop g x i acc = acc + ∑ j in Finset.range i, g j * x j := by
  induction i generalizing acc with
  | zero => simp [dotLoop]
  | succ i ih => rw [dotLoop, ih, Finset.sum_range_succ]; ring

theorem diagVecLoop_apply (cov : Buf) (ncol : Nat) (g : Buf) (i : Nat) (b : Buf) (k : Nat) :
    diagVecLoop cov ncol g i b k = if k < i then cov (ncol * k + k) * g k else b k := by
  induction i generalizing b with
  | zero => simp [diagVecLoop]
  | succ i ih =>
    rw [diagVecLoop, ih]
    by_cases h1 : k < i
    · have h2 : k < i + 1 := by omega
      simp [h1, h2]
    · by_cases h3 : k = i
      · subst h3; simp
      · have h2 : ¬ k < i + 1 := by omega
        simp [h1, h2, Function.update_noteq h3]

theorem corrLoop_apply (alpha : ℚ) (g cov_g : Buf) (ncol i : Nat) (out : Buf) (k : Nat) :
    corrLoop alpha g cov_g ncol i out k
      = if k < i then out k + alpha * (cov_g k / dotLoop g cov_g ncol 0) else out k := by
  induction i generalizing out with
  | zero => simp [corrLoop]
  | succ i ih =>
    rw [corrLoop]
    rw [ih]
    by_cases h1 : k < i
    · have h2 : k < i + 1 := by omega
      have h3 : k ≠ i := by omega
      simp [h1, h2, Function.update_noteq h3]
    · by_cases h3 : k = i
      · subst h3; simp
      · have h2 : ¬ k < i + 1 := by omega
        simp [h1, h2, Function.update_noteq h3]

theorem meanLoop_apply (v mean : Buf) (i : Nat) (out : Buf) (k : Nat) :
    meanLoop v mean i out k = if k < i then v k + mean k else out k := by
  induction i generalizing out with
  | zero => simp [meanLoop]
  | succ i ih =>
    rw [meanLoop, ih]
    by_cases h1 : k < i
    · have h2 : k < i + 1 := by omega
      simp [h1, h2]
    · by_cases h3 : k = i
      · subst h3; simp
      · have h2 : ¬ k < i + 1 := by omega
        simp [h1, h2, Function.update_noteq h3]

/-! ## Entries of the linear-algebra steps -/

theorem idx_div (i j m : Nat) (hj : j < m) : (i * m + j) / m = i := by
  have hm : 0 < m := by omega
  rw [Nat.add_comm, Nat.add_mul_div_right _ _ hm, Nat.div_eq_of_lt hj, Nat.zero_add]

theorem idx_mod (i j m : Nat) (hj : j < m) : (i * m + j) % m = j := by
  rw [Nat.add_comm, Nat.add_mul_mod_self_right, Nat.mod_eq_of_lt hj]

theorem GEMV_unit (m n : Nat) (alpha : ℚ) (a : Buf) (lda : Nat) (x : Buf) (beta : ℚ)
    (y : Buf) (k : Nat) :
    GEMV m n alpha a lda x 1 beta y 1 k
      = if k < m then
          alpha * (∑ j in Finset.range n, a (k * lda + j) * x j) + beta * y k
        else y k := by
  simp [GEMV, Nat.mod_one]

theorem GEMM_entry (m n k : Nat) (alpha : ℚ) (a : Buf) (lda : Nat) (b : Buf) (ldb : Nat)
    (beta : ℚ) (c : Buf) (i j : Nat) (hi : i < m) (hj : j < n) :
    GEMM m n k alpha a lda b ldb beta c n (i * n + j)
      = alpha * (∑ l in Finset.range k, a (i * lda + l) * b (l * ldb + j))
          + beta * c (i * n + j) := by
  simp [GEMM, idx_div i j n hj, idx_mod i j n hj, hi, hj]

theorem GEMM_NT_entry (m n k : Nat) (alpha : ℚ) (a : Buf) (lda : Nat) (b : Buf) (ldb : Nat)
    (beta : ℚ) (c : Buf) (i j : Nat) (hi : i < m) (hj : j < n) :
    GEMM_NT m n k alpha a lda b ldb beta c n (i * n + j)
      = alpha * (∑ l in Finset.range k, a (i * lda + l) * b (j * ldb + l))
          + beta * c (i * n + j) := by
  simp [GEMM_NT, idx_div i j n hj, idx_mod i j n hj, hi, hj]

theorem foldl_update_row (m i : Nat) (val : Nat → ℚ) (J : Nat) (hJ : J ≤ m) (b : Buf)
    (t : Nat) :
    (List.range J).foldl (fun (c : Buf) j => Function.update c (m * i + j) (val j)) b t
      = if t / m = i ∧ t % m < J then val (t % m) else b t := by
  induction J with
  | zero => simp
  | succ J ih =>
    have hJm : J < m := by omega
    rw [List.range_succ, List.foldl_append, List.foldl_cons, List.foldl_nil,
      Function.update_apply, ih (by omega)]
    have hd : (m * i + J) / m = i := by rw [Nat.mul_comm]; exact idx_div i J m hJm
    have hr : (m * i + J) % m = J := by rw [Nat.mul_comm]; exact idx_mod i J m hJm
    by_cases h : t = m * i + J
    · subst h
      simp [hd, hr]
    · rw [if_neg h]
      by_cases h1 : t / m = i ∧ t % m < J
      · have h2 : t / m = i ∧ t % m < J + 1 := ⟨h1.1, by omega⟩
        rw [if_pos h1, if_pos h2]
      · by_cases h3 : t / m = i ∧ t % m = J
        · exfalso
          apply h
          have := Nat.div_add_mod t m
          rw [h3.1, h3.2] at this
          exact this.symm
        · have h2 : ¬ (t / m = i ∧ t % m < J + 1) := by
            intro h4
            rcases Nat.lt_succ_iff_lt_or_eq.mp h4.2 with h5 | h5
            · exact h1 ⟨h4.1, h5⟩
            · exact h3 ⟨h4.1, h5⟩
          rw [if_neg h1, if_neg h2]

theorem foldl_update_rows (m : Nat) (val : Nat → Nat → ℚ) (I : Nat) (b : Buf) (t : Nat) :
    (List.range I).foldl
        (fun (c : Buf) i =>
          (List.range m).foldl (fun (c : Buf) j => Function.update c (m * i + j) (val i j)) c)
        b t
      = if t / m < I ∧ t % m < m then val (t / m) (t % m) else b t := by
  induction I with
  | zero => simp
  | succ I ih =>
    rw [List.range_succ, List.foldl_append, List.foldl_cons, List.foldl_nil,
      foldl_update_row m I (val I) m (Nat.le_refl m), ih]
    by_cases h1 : t / m = I ∧ t % m < m
    · have h2 : t / m < I + 1 ∧ t % m < m := ⟨by omega, h1.2⟩
      rw [if_pos h1, if_pos h2, h1.1]
    · rw [if_neg h1]
      by_cases h3 : t / m < I ∧ t % m < m
      · have h2 : t / m < I + 1 ∧ t % m < m := ⟨by omega, h3.2⟩
        rw [if_pos h3, if_pos h2]
      · have h2 : ¬ (t / m < I + 1 ∧ t % m < m) := by
          intro h4
          rcases Nat.lt_succ_iff_lt_or_eq.mp h4.1 with h5 | h5
          · exact h3 ⟨h5, h4.2⟩
          · exact h1 ⟨h5, h4.2⟩
        rw [if_neg h3, if_neg h2]

theorem diagMatLoop_apply (cmat gmat : Buf) (gnrow gncol : Nat) (c0 : Buf) (t : Nat) :
    diagMatLoop cmat gmat gnrow gncol c0 t
      = if t / gnrow < gncol ∧ t % gnrow < gnrow then
          cmat (gncol * (t / gnrow) + t / gnrow) * gmat (gncol * (t % gnrow) + t / gnrow)
        else c0 t := by
  unfold diagMatLoop
  exact foldl_update_rows gnrow (fun i j => cmat (gncol * i + i) * gmat (gncol * j + i))
    gncol c0 t

theorem diagMatLoop_entry (cmat gmat : Buf) (gnrow gncol : Nat) (c0 : Buf) (i j : Nat)
    (hi : i < gncol) (hj : j < gnrow) :
    diagMatLoop cmat gmat gnrow gncol c0 (i * gnrow + j)
      = cmat (gncol * i + i) * gmat (gncol * j + i) := by
  rw [diagMatLoop_apply, idx_div i j gnrow hj, idx_mod i j gnrow hj, if_pos ⟨hi, hj⟩]

theorem mat_cov_g_entry (cmat : Buf) (diag : Bool) (gmat : Buf) (gnrow gncol : Nat)
    (c0 : Buf) (i j : Nat) (hi : i < gncol) (hj : j < gnrow) :
    mat_cov_g cmat diag gmat gnrow gncol c0 (i * gnrow + j)
      = if diag then cmat (gncol * i + i) * gmat (gncol * j + i)
        else ∑ l in Finset.range gncol, cmat (i * gncol + l) * gmat (j * gncol + l) := by
  cases diag
  · simp [mat_cov_g, GEMM_NT_entry _ _ _ _ _ _ _ _ _ _ _ _ hi hj]
  · simp [mat_cov_g, diagMatLoop_entry _ _ _ _ _ _ _ hi hj]

theorem rand_gy_entry (gmat : Buf) (gnrow gncol : Nat) (r out gy : Buf) (a : Nat)
    (ha : a < gnrow) :
    rand_gy gmat gnrow gncol r out gy a
      = r a - ∑ j in Finset.range gncol, gmat (a * gncol + j) * out j := by
  simp [rand_gy, GEMV_unit, memcpy, ha]
  ring

theorem rand_g_cov_g_entry (gmat : Buf) (gnrow gncol : Nat) (cov_g q0 : Buf) (a b : Nat)
    (ha : a < gnrow) (hb : b < gnrow) :
    rand_g_cov_g gmat gnrow gncol cov_g q0 (a * gnrow + b)
      = ∑ i in Finset.range gncol, gmat (a * gncol + i) * cov_g (i * gnrow + b) := by
  simp [rand_g_cov_g, GEMM_entry _ _ _ _ _ _ _ _ _ _ _ _ ha hb]

/-- The matrix `g·cov_g` of the general path is symmetric when `cov` is. -/
theorem rand_g_cov_g_symm (cmat : Buf) (diag : Bool) (gmat : Buf) (gnrow gncol : Nat)
    (c0 q0 : Buf) (hsym : IsSymm cmat gncol) :
    IsSymm (rand_g_cov_g gmat gnrow gncol (mat_cov_g cmat diag gmat gnrow gncol c0) q0)
      gnrow := by
  intro a ha b hb
  rw [rand_g_cov_g_entry _ _ _ _ _ _ _ ha hb, rand_g_cov_g_entry _ _ _ _ _ _ _ hb ha]
  cases diag
  · have e1 : ∀ i ∈ Finset.range gncol,
        gmat (a * gncol + i) * mat_cov_g cmat false gmat gnrow gncol c0 (i * gnrow + b)
          = ∑ l in Finset.range gncol,
              gmat (a * gncol + i) * cmat (i * gncol + l) * gmat (b * gncol + l) := by
      intro i hi
      rw [mat_cov_g_entry _ _ _ _ _ _ _ _ (Finset.mem_range.mp hi) hb]
      simp [Finset.mul_sum, mul_assoc]
    have e2 : ∀ i ∈ Finset.range gncol,
        gmat (b * gncol + i) * mat_cov_g cmat false gmat gnrow gncol c0 (i * gnrow + a)
          = ∑ l in Finset.range gncol,
              gmat (a * gncol + l) * cmat (l * gncol + i) * gmat (b * gncol + i) := by
      intro i hi
      rw [mat_cov_g_entry _ _ _ _ _ _ _ _ (Finset.mem_range.mp hi) ha]
      simp only [Bool.false_eq_true, if_false, Finset.mul_sum]
      apply Finset.sum_congr rfl
      intro l hl
      rw [hsym i (Finset.mem_range.mp hi) l (Finset.mem_range.mp hl)]
      ring
    rw [Finset.sum_congr rfl e1, Finset.sum_congr rfl e2, Finset.sum_comm]
  · apply Finset.sum_congr rfl
    intro i hi
    rw [mat_cov_g_entry _ _ _ _ _ _ _ _ (Finset.mem_range.mp hi) hb,
      mat_cov_g_entry _ _ _ _ _ _ _ _ (Finset.mem_range.mp hi) ha]
    simp only [if_true]
    rw [Nat.mul_comm gncol b, Nat.mul_comm gncol a]
    ring

theorem symTri_of_symm (upper : Bool) (a : Buf) (n : Nat) (h : IsSymm a n) (i j : Nat)
    (hi : i < n) (hj : j < n) : symTri upper a n i j = a (i * n + j) := by
  unfold symTri
  cases upper
  · by_cases hij : j ≤ i
    · simp [hij]
    · simp [hij, h j hj i hi]
  · by_cases hij : i ≤ j
    · simp [hij]
    · simp [hij, h j hj i hi]

theorem vec_cov_g_entry (upper : Bool) (cov : Buf) (ncol : Nat) (diag : Bool) (g c0 : Buf)
    (k : Nat) (hk : k < ncol) :
    vec_cov_g upper cov ncol diag g c0 k
      = if diag then cov (ncol * k + k) * g k
        else ∑ j in Finset.range ncol, symTri upper cov ncol k j * g j := by
  cases diag
  · simp [vec_cov_g, SYMV, Nat.mod_one, hk]
  · simp [vec_cov_g, diagVecLoop_apply, hk]

/-! ## The single-row path -/

/-- The output of the single-row path when its allocation succeeds. -/
theorem g_a_vec_out (upper : Bool) (cov_g cov : Buf) (ncol : Nat) (diag : Bool)
    (g : Buf) (r : ℚ) (out : Buf) (k : Nat) :
    (htnorm_rand_g_a_vec upper (some cov_g) cov ncol diag g r out).2 k
      = if k < ncol then
          out k + (r - ∑ j in Finset.range ncol, g j * out j)
            * (vec_cov_g upper cov ncol diag g cov_g k
                / vec_g_cov_g upper cov ncol diag g cov_g)
        else out k := by
  simp [htnorm_rand_g_a_vec, corrLoop_apply, vec_g_cov_g, dotLoop_eq]

/-- The scalar `g_cov_g` of the single-row path is the quadratic form `g·cov·gᵀ` when
`cov` is symmetric and `diag` is unset. -/
theorem vec_g_cov_g_dense (upper : Bool) (cov : Buf) (ncol : Nat) (g c0 : Buf)
    (hsym : IsSymm cov ncol) :
    vec_g_cov_g upper cov ncol false g c0
      = ∑ i in Finset.range ncol, ∑ j in Finset.range ncol, g i * cov (i * ncol + j) * g j := by
  rw [vec_g_cov_g, dotLoop_eq, zero_add]
  apply Finset.sum_congr rfl
  intro k hk
  rw [vec_cov_g_entry upper cov ncol false g c0 k (Finset.mem_range.mp hk)]
  simp only [Bool.false_eq_true, if_false, Finset.mul_sum]
  apply Finset.sum_congr rfl
  intro j hj
  rw [symTri_of_symm upper cov ncol hsym k j (Finset.mem_range.mp hk) (Finset.mem_range.mp hj)]
  ring

/-- The scalar `g_cov_g` of the single-row path is `Σ cov[i,i]·g[i]²` when `diag` is
set. -/
theorem vec_g_cov_g_diag (upper : Bool) (cov : Buf) (ncol : Nat) (g c0 : Buf) :
    vec_g_cov_g upper cov ncol true g c0
      = ∑ i in Finset.range ncol, cov (ncol * i + i) * (g i * g i) := by
  rw [vec_g_cov_g, dotLoop_eq, zero_add]
  apply Finset.sum_congr rfl
  intro k hk
  rw [vec_cov_g_entry upper cov ncol true g c0 k (Finset.mem_range.mp hk)]
  simp only [if_true]
  ring

/-- C1. Single-row path of `htnorm_rand` (taken when `g` has exactly one row), exact
arithmetic: for every dimension, every covariance buffer, either setting of `diag`,
every row `g`, target `r` and every successful unconstrained draw `y`, once the scratch
buffer is allocated, when the scalar `g·cov·gᵀ` that the code computes and divides by is
not zero, the call returns status `0` and an `out` with `g·out = r`. -/
theorem htnorm_rand_single_row_constraint {ρ : Type} (E : Env ρ)
    (gy g_cov_g : Option Buf) (c0 : Buf) (rng rng1 : ρ) (mean : Buf)
    (cov : matrix_t) (diag : Bool) (g : matrix_t) (r out y : Buf)
    (hrow : g.nrow = 1)
    (hdraw : E.mv_normal_rand rng mean cov.mat g.ncol diag out = (0, y, rng1))
    (hne : vec_g_cov_g E.symv_upper cov.mat g.ncol diag g.mat c0 ≠ 0) :
    (htnorm_rand E gy (some c0) g_cov_g rng mean cov diag g r out).1 = 0 ∧
    ∑ i in Finset.range g.ncol,
      g.mat i * (htnorm_rand E gy (some c0) g_cov_g rng mean cov diag g r out).2.1 i
        = r 0 := by
  have hst : (htnorm_rand E gy (some c0) g_cov_g rng mean cov diag g r out).1 = 0 := by
    simp [htnorm_rand, hdraw, hrow, htnorm_rand_g_a_vec]
  have hout : (htnorm_rand E gy (some c0) g_cov_g rng mean cov diag g r out).2.1
      = (htnorm_rand_g_a_vec E.symv_upper (some c0) cov.mat g.ncol diag g.mat (r 0) y).2 := by
    simp [htnorm_rand, hdraw, hrow]
  refine ⟨hst, ?_⟩
  rw [hout]
  have hsum : ∀ i ∈ Finset.range g.ncol,
      g.mat i * (htnorm_rand_g_a_vec E.symv_upper (some c0) cov.mat g.ncol diag g.mat (r 0) y).2 i
        = g.mat i * y i + (r 0 - ∑ j in Finset.range g.ncol, g.mat j * y j)
            * (g.mat i * vec_cov_g E.symv_upper cov.mat g.ncol diag g.mat c0 i)
            / vec_g_cov_g E.symv_upper cov.mat g.ncol diag g.mat c0 := by
    intro i hi
    rw [g_a_vec_out, if_pos (Finset.mem_range.mp hi)]
    ring
  rw [Finset.sum_congr rfl hsum, Finset.sum_add_distrib, ← Finset.sum_div, ← Finset.mul_sum]
  have hq : ∑ i in Finset.range g.ncol,
      g.mat i * vec_cov_g E.symv_upper cov.mat g.ncol diag g.mat c0 i
        = vec_g_cov_g E.symv_upper cov.mat g.ncol diag g.mat c0 := by
    simp [vec_g_cov_g, dotLoop_eq]
  rw [hq, mul_div_assoc, div_self hne]
  ring

/-- The single-row instance `n = 3`, `cov = I₃`, `g = [1, 1, 1]`, `r = 5` at the draw
`y = [1, -2, 7/2]`: the components of `out` sum to `5`, with `diag` unset and set. -/
theorem htnorm_rand_single_row_constraint_witness :
    (∑ i in Finset.range 3, ofList [1, 1, 1] i *
      (htnorm_rand (exEnv (ofList [1, -2, 7/2]) idSolve) none (some (ofList [])) none ()
        (ofList [0, 0, 0]) ⟨ofList [1, 0, 0, 0, 1, 0, 0, 0, 1], 3, 3⟩ false
        ⟨ofList [1, 1, 1], 1, 3⟩ (ofList [5]) (ofList [])).2.1 i = 5) ∧
    (∑ i in Finset.range 3, ofList [1, 1, 1] i *
      (htnorm_rand (exEnv (ofList [1, -2, 7/2]) idSolve) none (some (ofList [])) none ()
        (ofList [0, 0, 0]) ⟨ofList [1, 0, 0, 0, 1, 0, 0, 0, 1], 3, 3⟩ true
        ⟨ofList [1, 1, 1], 1, 3⟩ (ofList [5]) (ofList [])).2.1 i = 5) :=
  ⟨(htnorm_rand_single_row_constraint (exEnv (ofList [1, -2, 7/2]) idSolve) none none
      (ofList []) () () (ofList [0, 0, 0])
      ⟨ofList [1, 0, 0, 0, 1, 0, 0, 0, 1], 3, 3⟩ false ⟨ofList [1, 1, 1], 1, 3⟩
      (ofList [5]) (ofList []) (ofList [1, -2, 7/2]) rfl rfl
      (by norm_num [vec_g_cov_g, vec_cov_g, dotLoop, SYMV, symTri, Finset.sum_range_succ,
        ofList, exEnv])).2,
   (htnorm_rand_single_row_constraint (exEnv (ofList [1, -2, 7/2]) idSolve) none none
      (ofList []) () () (ofList [0, 0, 0])
      ⟨ofList [1, 0, 0, 0, 1, 0, 0, 0, 1], 3, 3⟩ true ⟨ofList [1, 1, 1], 1, 3⟩
      (ofList [5]) (ofList []) (ofList [1, -2, 7/2]) rfl rfl
      (by norm_num [vec_g_cov_g, vec_cov_g, dotLoop, diagVecLoop, Function.update,
        ofList, exEnv])).2⟩

/-! ## The general path -/

/-- The result of the general path when its three allocations succeed and the solve
reports success. -/
theorem general_success {ρ : Type} (E : Env ρ) (gy0 c0 q0 cmat : Buf) (diag : Bool)
    (gmat : Buf) (gnrow gncol : Nat) (r y fa alpha : Buf)
    (hsolve : E.POSV gnrow 1
        (rand_g_cov_g gmat gnrow gncol (mat_cov_g cmat diag gmat gnrow gncol c0) q0) gnrow
        (rand_gy gmat gnrow gncol r y gy0) 1 = (0, fa, alpha)) :
    htnorm_rand_general E (some gy0) (some c0) (some q0) cmat diag gmat gnrow gncol r y
      = (0, GEMV gncol gnrow 1 (mat_cov_g cmat diag gmat gnrow gncol c0) gnrow alpha 1 1 y 1) := by
  simp [htnorm_rand_general, hsolve]

/-- The constraint rows after the correction `out = y + cov_g·alpha`, whatever `cov_g`
and `alpha` are: `g·out = g·y + (g·cov_g)·alpha`. -/
theorem constraint_after_update (gmat : Buf) (gnrow gncol : Nat) (cov_g q0 y alpha : Buf)
    (a : Nat) (ha : a < gnrow) :
    ∑ i in Finset.range gncol,
        gmat (a * gncol + i) * GEMV gncol gnrow 1 cov_g gnrow alpha 1 1 y 1 i
      = ∑ i in Finset.range gncol, gmat (a * gncol + i) * y i
        + ∑ j in Finset.range gnrow,
            rand_g_cov_g gmat gnrow gncol cov_g q0 (a * gnrow + j) * alpha j := by
  have e1 : ∀ i ∈ Finset.range gncol,
      gmat (a * gncol + i) * GEMV gncol gnrow 1 cov_g gnrow alpha 1 1 y 1 i
        = gmat (a * gncol + i) * y i
          + ∑ j in Finset.range gnrow,
              gmat (a * gncol + i) * cov_g (i * gnrow + j) * alpha j := by
    intro i hi
    rw [GEMV_unit, if_pos (Finset.mem_range.mp hi), one_mul, one_mul, mul_add,
      Finset.mul_sum, add_comm]
    congr 1
    apply Finset.sum_congr rfl
    intro j _
    ring
  have e2 : ∀ j ∈ Finset.range gnrow,
      rand_g_cov_g gmat gnrow gncol cov_g q0 (a * gnrow + j) * alpha j
        = ∑ i in Finset.range gncol,
            gmat (a * gncol + i) * cov_g (i * gnrow + j) * alpha j := by
    intro j hj
    rw [rand_g_cov_g_entry _ _ _ _ _ _ _ ha (Finset.mem_range.mp hj), Finset.sum_mul]
  rw [Finset.sum_congr rfl e1, Finset.sum_add_distrib, Finset.sum_congr rfl e2,
    Finset.sum_comm]

/-- C2. General path of `htnorm_rand` (taken when `g` does not have exactly one row),
exact arithmetic: for every symmetric `cov`, every `g`, `r` and successful draw `y`, and for
the dense and the diagonal computation of `cov·gᵀ` alike, if the solve of
`(g·cov·gᵀ)·alpha = r − g·y` reports status `0` and its `alpha` solves exactly the system
that the stored upper triangle defines, then the call returns status `0`, the returned
`out` is `y + cov_g·alpha`, and `g·out = r` row by row. -/
theorem htnorm_rand_general_constraint {ρ : Type} (E : Env ρ) (gy0 c0 q0 : Buf)
    (rng rng1 : ρ) (mean : Buf) (cov : matrix_t) (diag : Bool) (g : matrix_t)
    (r out y fa alpha : Buf)
    (hrow : g.nrow ≠ 1)
    (hsym : IsSymm cov.mat g.ncol)
    (hdraw : E.mv_normal_rand rng mean cov.mat g.ncol diag out = (0, y, rng1))
    (hsolve : E.POSV g.nrow 1
        (rand_g_cov_g g.mat g.nrow g.ncol
          (mat_cov_g cov.mat diag g.mat g.nrow g.ncol c0) q0) g.nrow
        (rand_gy g.mat g.nrow g.ncol r y gy0) 1 = (0, fa, alpha))
    (hexact : SolvesUpper
        (rand_g_cov_g g.mat g.nrow g.ncol
          (mat_cov_g cov.mat diag g.mat g.nrow g.ncol c0) q0) g.nrow
        (rand_gy g.mat g.nrow g.ncol r y gy0) alpha) :
    (htnorm_rand E (some gy0) (some c0) (some q0) rng mean cov diag g r out).1 = 0 ∧
    (∀ i < g.ncol,
      (htnorm_rand E (some gy0) (some c0) (some q0) rng mean cov diag g r out).2.1 i
        = y i + ∑ j in Finset.range g.nrow,
            mat_cov_g cov.mat diag g.mat g.nrow g.ncol c0 (i * g.nrow + j) * alpha j) ∧
    (∀ a < g.nrow,
      ∑ i in Finset.range g.ncol, g.mat (a * g.ncol + i) *
        (htnorm_rand E (some gy0) (some c0) (some q0) rng mean cov diag g r out).2.1 i
        = r a) := by
  have hres : htnorm_rand E (some gy0) (some c0) (some q0) rng mean cov diag g r out
      = (0, GEMV g.ncol g.nrow 1 (mat_cov_g cov.mat diag g.mat g.nrow g.ncol c0) g.nrow
          alpha 1 1 y 1, rng1) := by
    simp [htnorm_rand, hdraw, hrow, general_success E gy0 c0 q0 cov.mat diag g.mat g.nrow
      g.ncol r y fa alpha hsolve]
  rw [hres]
  refine ⟨rfl, ?_, ?_⟩
  · intro i hi
    show GEMV g.ncol g.nrow 1 _ g.nrow alpha 1 1 y 1 i = _
    rw [GEMV_unit, if_pos hi]
    ring
  · intro a ha
    show ∑ i in Finset.range g.ncol, g.mat (a * g.ncol + i) *
        GEMV g.ncol g.nrow 1 _ g.nrow alpha 1 1 y 1 i = r a
    rw [constraint_after_update g.mat g.nrow g.ncol _ q0 y alpha a ha]
    have hs := hexact a ha
    rw [rand_gy_entry _ _ _ _ _ _ _ ha] at hs
    have e : ∀ j ∈ Finset.range g.nrow,
        symTri true (rand_g_cov_g g.mat g.nrow g.ncol
          (mat_cov_g cov.mat diag g.mat g.nrow g.ncol c0) q0) g.nrow a j * alpha j
        = rand_g_cov_g g.mat g.nrow g.ncol
          (mat_cov_g cov.mat diag g.mat g.nrow g.ncol c0) q0 (a * g.nrow + j) * alpha j := by
      intro j hj
      rw [symTri_of_symm true _ _
        (rand_g_cov_g_symm cov.mat diag g.mat g.nrow g.ncol c0 q0 hsym) a j ha
        (Finset.mem_range.mp hj)]
    rw [Finset.sum_congr rfl e] at hs
    rw [hs]
    ring

/-- The general path at `n = 2`, two constraint rows `g = I₂`, `cov = I₂`, `r = [1, 2]`
and the draw `y = [0, 0]`: the system is `I₂·alpha = r`, the solve returns `alpha = r`,
and the corrected `out` meets both constraints (dense computation of `cov·gᵀ`). -/
theorem htnorm_rand_general_constraint_witness :
    (htnorm_rand (exEnv (ofList [0, 0]) idSolve) (some (ofList [])) (some (ofList []))
      (some (ofList [])) () (ofList [0, 0]) ⟨ofList [1, 0, 0, 1], 2, 2⟩ false
      ⟨ofList [1, 0, 0, 1], 2, 2⟩ (ofList [1, 2]) (ofList [])).1 = 0 ∧
    (∀ a < 2, ∑ i in Finset.range 2, ofList [1, 0, 0, 1] (a * 2 + i) *
      (htnorm_rand (exEnv (ofList [0, 0]) idSolve) (some (ofList [])) (some (ofList []))
        (some (ofList [])) () (ofList [0, 0]) ⟨ofList [1, 0, 0, 1], 2, 2⟩ false
        ⟨ofList [1, 0, 0, 1], 2, 2⟩ (ofList [1, 2]) (ofList [])).2.1 i
        = ofList [1, 2] a) :=
  have h := htnorm_rand_general_constraint (exEnv (ofList [0, 0]) idSolve) (ofList [])
    (ofList []) (ofList []) () () (ofList [0, 0]) ⟨ofList [1, 0, 0, 1], 2, 2⟩ false
    ⟨ofList [1, 0, 0, 1], 2, 2⟩ (ofList [1, 2]) (ofList []) (ofList [0, 0])
    (rand_g_cov_g (ofList [1, 0, 0, 1]) 2 2
      (mat_cov_g (ofList [1, 0, 0, 1]) false (ofList [1, 0, 0, 1]) 2 2 (ofList [])) (ofList []))
    (rand_gy (ofList [1, 0, 0, 1]) 2 2 (ofList [1, 2]) (ofList [0, 0]) (ofList []))
    (by decide)
    (by
      intro i hi j hj
      interval_cases i <;> interval_cases j <;> simp [ofList])
    rfl rfl
    (by
      intro i hi
      interval_cases i <;>
        simp [symTri, rand_g_cov_g, rand_gy, mat_cov_g, GEMM, GEMM_NT, GEMV, memcpy,
          Finset.sum_range_succ, ofList])
  ⟨h.1, h.2.2⟩

/-! ## The single-row path against the general recipe -/

/-- With one constraint row and a symmetric `cov`, the matrix `cov_g` of the general path
is the vector `cov_g` of the single-row path. -/
theorem mat_cov_g_one_row (upper : Bool) (cov : Buf) (ncol : Nat) (diag : Bool)
    (g c0 c1 : Buf) (hsym : IsSymm cov ncol) (k : Nat) (hk : k < ncol) :
    mat_cov_g cov diag g 1 ncol c1 k = vec_cov_g upper cov ncol diag g c0 k := by
  have h := mat_cov_g_entry cov diag g 1 ncol c1 k 0 hk (by omega)
  rw [Nat.mul_one, Nat.add_zero] at h
  rw [h, vec_cov_g_entry upper cov ncol diag g c0 k hk]
  cases diag
  · simp only [Bool.false_eq_true, if_false]
    apply Finset.sum_congr rfl
    intro j hj
    rw [symTri_of_symm upper cov ncol hsym k j hk (Finset.mem_range.mp hj), Nat.zero_mul,
      Nat.zero_add]
  · simp

theorem posDef_diag_pos (a : Buf) (n : Nat) (h : IsPosDef a n) (k : Nat) (hk : k < n) :
    0 < a (k * n + k) := by
  have h1 := h (fun i => if i = k then 1 else 0) ⟨k, hk, by simp⟩
  simpa [Finset.sum_ite_eq', hk] using h1

/-- For a symmetric positive-definite `cov` and a non-zero row `g`, the scalar `g_cov_g`
of the single-row path is positive, with `diag` set or not. -/
theorem vec_g_cov_g_pos (upper : Bool) (cov : Buf) (ncol : Nat) (diag : Bool) (g c0 : Buf)
    (hsym : IsSymm cov ncol) (hpd : IsPosDef cov ncol) (hg : ∃ i < ncol, g i ≠ 0) :
    0 < vec_g_cov_g upper cov ncol diag g c0 := by
  rw [vec_g_cov_g, dotLoop_eq, zero_add]
  cases diag
  · have e : ∀ k ∈ Finset.range ncol,
        g k * vec_cov_g upper cov ncol false g c0 k
          = ∑ j in Finset.range ncol, g k * cov (k * ncol + j) * g j := by
      intro k hk
      rw [vec_cov_g_entry upper cov ncol false g c0 k (Finset.mem_range.mp hk)]
      simp only [Bool.false_eq_true, if_false, Finset.mul_sum]
      apply Finset.sum_congr rfl
      intro j hj
      rw [symTri_of_symm upper cov ncol hsym k j (Finset.mem_range.mp hk)
        (Finset.mem_range.mp hj)]
      ring
    rw [Finset.sum_congr rfl e]
    exact hpd g hg
  · obtain ⟨i, hi, hgi⟩ := hg
    have e : ∀ k ∈ Finset.range ncol,
        g k * vec_cov_g upper cov ncol true g c0 k = cov (k * ncol + k) * (g k * g k) := by
      intro k hk
      rw [vec_cov_g_entry upper cov ncol true g c0 k (Finset.mem_range.mp hk)]
      simp only [if_true]
      rw [Nat.mul_comm ncol k]
      ring
    rw [Finset.sum_congr rfl e]
    apply Finset.sum_pos'
    · intro k hk
      exact mul_nonneg (le_of_lt (posDef_diag_pos cov ncol hpd k (Finset.mem_range.mp hk)))
        (mul_self_nonneg _)
    · exact ⟨i, Finset.mem_range.mpr hi,
        mul_pos (posDef_diag_pos cov ncol hpd i hi) (mul_self_pos.mpr hgi)⟩

/-- C3. The single-row path agrees with the general path run with one row, exact
arithmetic: for every symmetric positive-definite `cov`, every non-zero row `g`, every
`r` and draw `y`, with `diag` set or not, when the solve of the general recipe
(`gy = r − g·y`, `cov_g = cov·gᵀ`, `g_cov_g = g·cov_g`, solve `g_cov_g·alpha = gy`,
`out = y + cov_g·alpha`) reports success with an exact solution, `htnorm_rand_g_a_vec`
returns the same status and the same `out` as that recipe. -/
theorem g_a_vec_eq_general_one_row {ρ : Type} (E : Env ρ) (c0 gy0 c1 q0 cov : Buf)
    (ncol : Nat) (diag : Bool) (g r y fa alpha : Buf)
    (hsym : IsSymm cov ncol) (hpd : IsPosDef cov ncol) (hg : ∃ i < ncol, g i ≠ 0)
    (hsolve : E.POSV 1 1
        (rand_g_cov_g g 1 ncol (mat_cov_g cov diag g 1 ncol c1) q0) 1
        (rand_gy g 1 ncol r y gy0) 1 = (0, fa, alpha))
    (hexact : SolvesUpper (rand_g_cov_g g 1 ncol (mat_cov_g cov diag g 1 ncol c1) q0) 1
        (rand_gy g 1 ncol r y gy0) alpha) :
    htnorm_rand_g_a_vec E.symv_upper (some c0) cov ncol diag g (r 0) y
      = htnorm_rand_general E (some gy0) (some c1) (some q0) cov diag g 1 ncol r y := by
  rw [general_success E gy0 c1 q0 cov diag g 1 ncol r y fa alpha hsolve]
  have hpos := vec_g_cov_g_pos E.symv_upper cov ncol diag g c0 hsym hpd hg
  have hq : rand_g_cov_g g 1 ncol (mat_cov_g cov diag g 1 ncol c1) q0 0
      = vec_g_cov_g E.symv_upper cov ncol diag g c0 := by
    have h := rand_g_cov_g_entry g 1 ncol (mat_cov_g cov diag g 1 ncol c1) q0 0 0
      (by omega) (by omega)
    rw [Nat.zero_mul, Nat.add_zero] at h
    rw [h, vec_g_cov_g, dotLoop_eq, zero_add]
    apply Finset.sum_congr rfl
    intro i hi
    rw [Nat.zero_mul, Nat.zero_add, Nat.mul_one, Nat.add_zero,
      mat_cov_g_one_row E.symv_upper cov ncol diag g c0 c1 hsym i (Finset.mem_range.mp hi)]
  have ha : alpha 0 = (r 0 - ∑ j in Finset.range ncol, g j * y j)
      / vec_g_cov_g E.symv_upper cov ncol diag g c0 := by
    have h := hexact 0 (by omega)
    rw [rand_gy_entry g 1 ncol r y gy0 0 (by omega)] at h
    simp only [Finset.sum_range_one, symTri, if_true, le_refl, Nat.zero_mul, Nat.add_zero,
      Nat.zero_add] at h
    rw [hq] at h
    rw [eq_div_iff (ne_of_gt hpos), ← h]
    ring
  have hstat : (htnorm_rand_g_a_vec E.symv_upper (some c0) cov ncol diag g (r 0) y).1 = 0 := by
    simp [htnorm_rand_g_a_vec]
  refine Prod.ext hstat ?_
  funext k
  show (htnorm_rand_g_a_vec E.symv_upper (some c0) cov ncol diag g (r 0) y).2 k
    = GEMV ncol 1 1 (mat_cov_g cov diag g 1 ncol c1) 1 alpha 1 1 y 1 k
  rw [g_a_vec_out, GEMV_unit]
  by_cases hk : k < ncol
  · rw [if_pos hk, if_pos hk, Finset.sum_range_one, Nat.mul_one, Nat.add_zero,
      mat_cov_g_one_row E.symv_upper cov ncol diag g c0 c1 hsym k hk, ha]
    ring
  · rw [if_neg hk, if_neg hk]

/-- The instance `n = 2`, `cov = [[1, -1/2], [-1/2, 1]]`, `g = [1, 1]`, `r = 3` at the draw
`y = [1, 0]`: here `g·cov·gᵀ = 1`, the one-equation system is solved by its right-hand
side, and both paths return the same status and the same `out`. -/
theorem g_a_vec_eq_general_one_row_witness :
    htnorm_rand_g_a_vec true (some (ofList [])) (ofList [1, -1/2, -1/2, 1]) 2 false
        (ofList [1, 1]) 3 (ofList [1, 0])
      = htnorm_rand_general (exEnv (ofList [1, 0]) idSolve) (some (ofList []))
          (some (ofList [])) (some (ofList [])) (ofList [1, -1/2, -1/2, 1]) false
          (ofList [1, 1]) 1 2 (ofList [3]) (ofList [1, 0]) :=
  g_a_vec_eq_general_one_row (exEnv (ofList [1, 0]) idSolve) (ofList []) (ofList [])
    (ofList []) (ofList []) (ofList [1, -1/2, -1/2, 1]) 2 false (ofList [1, 1]) (ofList [3])
    (ofList [1, 0])
    (rand_g_cov_g (ofList [1, 1]) 1 2
      (mat_cov_g (ofList [1, -1/2, -1/2, 1]) false (ofList [1, 1]) 1 2 (ofList [])) (ofList []))
    (rand_gy (ofList [1, 1]) 1 2 (ofList [3]) (ofList [1, 0]) (ofList []))
    (by
      intro i hi j hj
      interval_cases i <;> interval_cases j <;> simp [ofList])
    (by
      intro x hx
      obtain ⟨i, hi, hxi⟩ := hx
      have h0 : 0 ≤ (x 0 - x 1) * (x 0 - x 1) := mul_self_nonneg _
      have h1 : 0 ≤ x 0 * x 0 := mul_self_nonneg _
      have h2 : 0 ≤ x 1 * x 1 := mul_self_nonneg _
      have h3 : 0 < x 0 * x 0 + x 1 * x 1 := by
        interval_cases i
        · have := mul_self_pos.mpr hxi; linarith
        · have := mul_self_pos.mpr hxi; linarith
      simp [Finset.sum_range_succ, ofList]
      linarith)
    ⟨0, by decide, by simp [ofList]⟩
    rfl
    (by
      intro i hi
      interval_cases i
      simp [symTri, rand_g_cov_g, rand_gy, mat_cov_g, GEMM, GEMM_NT, GEMV, memcpy,
        Finset.sum_range_succ, ofList]
      norm_num)

/-! ## The two-stage sampler -/

/-- The result of `htnorm_rand2` when every allocation and both draws succeed. -/
theorem rand2_after_draws {ρ : Type} (E : Env ρ) (v1 c1 v2 c2 x0 : Buf) (rng rng1 rng2 : ρ)
    (mean : Buf) (a : matrix_t) (a_diag : Bool) (phi omega : matrix_t) (o_diag : Bool)
    (out w1 k1 w2 k2 : Buf)
    (hd1 : E.mv_normal_rand_prec rng a.mat phi.ncol a_diag v1 c1 false = (0, w1, k1, rng1))
    (hd2 : E.mv_normal_rand_prec rng1 omega.mat phi.nrow o_diag v2 c2 true
      = (0, w2, k2, rng2)) :
    htnorm_rand2 E (some ⟨some v1, some c1⟩) (some ⟨some v2, some c2⟩) (some x0) rng mean a
        a_diag phi omega o_diag out
      = if (E.POSV phi.nrow 1
            (rand2_sys phi.mat phi.nrow phi.ncol
              (rand2_x a.mat phi.mat phi.nrow phi.ncol x0) k2) phi.nrow
            (rand2_rhs phi.mat phi.nrow phi.ncol w1 w2) 1).1 = 0 then
          (0, GEMV phi.ncol phi.nrow (-1) (rand2_x a.mat phi.mat phi.nrow phi.ncol x0)
            phi.nrow
            (E.POSV phi.nrow 1
              (rand2_sys phi.mat phi.nrow phi.ncol
                (rand2_x a.mat phi.mat phi.nrow phi.ncol x0) k2) phi.nrow
              (rand2_rhs phi.mat phi.nrow phi.ncol w1 w2) 1).2.2 1 1
            (meanLoop w1 mean phi.ncol out) 1, rng2)
        else
          ((E.POSV phi.nrow 1
            (rand2_sys phi.mat phi.nrow phi.ncol
              (rand2_x a.mat phi.mat phi.nrow phi.ncol x0) k2) phi.nrow
            (rand2_rhs phi.mat phi.nrow phi.ncol w1 w2) 1).1,
           meanLoop w1 mean phi.ncol out, rng2) := by
  simp only [htnorm_rand2, hd1, hd2, ne_eq, not_true_eq_false, if_false]
  split <;> simp_all

/-- What the step `x = A_inv * phi^T` computes, as coded: the product of the precision
matrix `a` itself with the transpose of `phi`. -/
theorem rand2_x_entry (amat pmat : Buf) (pnrow pncol : Nat) (x0 : Buf) (i j : Nat)
    (hi : i < pncol) (hj : j < pnrow) :
    rand2_x amat pmat pnrow pncol x0 (i * pnrow + j)
      = ∑ l in Finset.range pncol, amat (i * pncol + l) * pmat (j * pncol + l) := by
  simp [rand2_x, GEMM_NT_entry _ _ _ _ _ _ _ _ _ _ _ _ hi hj]

/-- C4. At the precision matrix `a = [[2, 0], [0, 4]]`, whose inverse is
`[[1/2, 0], [0, 1/4]]`, and `phi = [[1, 1]]`, the matrix `x` that `htnorm_rand2` forms is
`a·φᵀ = [2, 4]`, not `a⁻¹·φᵀ = [1/2, 1/4]`. -/
theorem rand2_x_is_not_inverse_product :
    IsInverse (ofList [1/2, 0, 0, 1/4]) (ofList [2, 0, 0, 4]) 2 ∧
    rand2_x (ofList [2, 0, 0, 4]) (ofList [1, 1]) 1 2 (ofList []) 0 = 2 ∧
    rand2_x (ofList [2, 0, 0, 4]) (ofList [1, 1]) 1 2 (ofList []) 1 = 4 ∧
    (∑ l in Finset.range 2, ofList [1/2, 0, 0, 1/4] (0 * 2 + l) * ofList [1, 1] (0 * 2 + l))
      = 1 / 2 ∧
    (∑ l in Finset.range 2, ofList [1/2, 0, 0, 1/4] (1 * 2 + l) * ofList [1, 1] (0 * 2 + l))
      = 1 / 4 := by
  refine ⟨?_, ?_, ?_, ?_, ?_⟩
  · intro i hi j hj
    interval_cases i <;> interval_cases j <;> norm_num [Finset.sum_range_succ, ofList]
  · norm_num [rand2_x, GEMM_NT, Finset.sum_range_succ, ofList]
  · norm_num [rand2_x, GEMM_NT, Finset.sum_range_succ, ofList]
  · norm_num [Finset.sum_range_succ, ofList]
  · norm_num [Finset.sum_range_succ, ofList]

/-- C5. Composition formula of `htnorm_rand2`, exact arithmetic: when both draws succeed
(leaving `v1`, and `v2` with covariance `C2`), `x` is allocated and the solve reports
success with `alpha`, the call returns status `0` and `out = mean + v1 − x·alpha`, where
`alpha` is what the solve returned for the system with matrix `φ·x + C2` and right-hand
side `φ·v1 + v2`, and `x` is the matrix formed in the `x = A_inv * phi^T` step. -/
theorem htnorm_rand2_composition {ρ : Type} (E : Env ρ) (v1 c1 v2 c2 x0 : Buf)
    (rng rng1 rng2 : ρ) (mean : Buf) (a : matrix_t) (a_diag : Bool) (phi omega : matrix_t)
    (o_diag : Bool) (out w1 k1 w2 k2 fa alpha : Buf)
    (hd1 : E.mv_normal_rand_prec rng a.mat phi.ncol a_diag v1 c1 false = (0, w1, k1, rng1))
    (hd2 : E.mv_normal_rand_prec rng1 omega.mat phi.nrow o_diag v2 c2 true
      = (0, w2, k2, rng2))
    (hsolve : E.POSV phi.nrow 1
        (rand2_sys phi.mat phi.nrow phi.ncol
          (rand2_x a.mat phi.mat phi.nrow phi.ncol x0) k2) phi.nrow
        (rand2_rhs phi.mat phi.nrow phi.ncol w1 w2) 1 = (0, fa, alpha)) :
    (htnorm_rand2 E (some ⟨some v1, some c1⟩) (some ⟨some v2, some c2⟩) (some x0) rng mean a
        a_diag phi omega o_diag out).1 = 0 ∧
    (∀ i < phi.ncol,
      (htnorm_rand2 E (some ⟨some v1, some c1⟩) (some ⟨some v2, some c2⟩) (some x0) rng mean
          a a_diag phi omega o_diag out).2.1 i
        = mean i + w1 i
          - ∑ j in Finset.range phi.nrow,
              rand2_x a.mat phi.mat phi.nrow phi.ncol x0 (i * phi.nrow + j) * alpha j) ∧
    (∀ p < phi.nrow, ∀ q < phi.nrow,
      rand2_sys phi.mat phi.nrow phi.ncol (rand2_x a.mat phi.mat phi.nrow phi.ncol x0) k2
          (p * phi.nrow + q)
        = ∑ l in Finset.range phi.ncol,
            phi.mat (p * phi.ncol + l)
              * rand2_x a.mat phi.mat phi.nrow phi.ncol x0 (l * phi.nrow + q)
          + k2 (p * phi.nrow + q)) ∧
    (∀ p < phi.nrow,
      rand2_rhs phi.mat phi.nrow phi.ncol w1 w2 p
        = ∑ l in Finset.range phi.ncol, phi.mat (p * phi.ncol + l) * w1 l + w2 p) := by
  rw [rand2_after_draws E v1 c1 v2 c2 x0 rng rng1 rng2 mean a a_diag phi omega o_diag out
    w1 k1 w2 k2 hd1 hd2, hsolve]
  refine ⟨by simp, ?_, ?_, ?_⟩
  · intro i hi
    simp only [if_true]
    rw [GEMV_unit, if_pos hi, meanLoop_apply, if_pos hi]
    ring
  · intro p hp q hq
    simp [rand2_sys, GEMM_entry _ _ _ _ _ _ _ _ _ _ _ _ hp hq]
  · intro p hp
    simp [rand2_rhs, GEMV_unit, hp]

/-- The instance `a = I₂`, `phi = [[1/2, 1/2]]`, draws `v1 = [1, 2]`, `v2 = [3]`,
`C2 = [1/2]`, `mean = 0`: the system is `1·alpha = 9/2` and `out = v1 − x·alpha`. -/
theorem htnorm_rand2_composition_witness :
    (htnorm_rand2 (exEnv2 2 (ofList [1, 2]) (ofList [1, 0, 0, 1]) (ofList [3]) (ofList [1/2])
        idSolve) (some ⟨some (ofList []), some (ofList [])⟩)
        (some ⟨some (ofList []), some (ofList [])⟩) (some (ofList [])) () (ofList [0, 0])
        ⟨ofList [1, 0, 0, 1], 2, 2⟩ false ⟨ofList [1/2, 1/2], 1, 2⟩ ⟨ofList [2], 1, 1⟩ false
        (ofList [])).1 = 0 ∧
    (htnorm_rand2 (exEnv2 2 (ofList [1, 2]) (ofList [1, 0, 0, 1]) (ofList [3]) (ofList [1/2])
        idSolve) (some ⟨some (ofList []), some (ofList [])⟩)
        (some ⟨some (ofList []), some (ofList [])⟩) (some (ofList [])) () (ofList [0, 0])
        ⟨ofList [1, 0, 0, 1], 2, 2⟩ false ⟨ofList [1/2, 1/2], 1, 2⟩ ⟨ofList [2], 1, 1⟩ false
        (ofList [])).2.1 0 = -5 / 4 := by
  have h := htnorm_rand2_composition
    (exEnv2 2 (ofList [1, 2]) (ofList [1, 0, 0, 1]) (ofList [3]) (ofList [1/2]) idSolve)
    (ofList []) (ofList []) (ofList []) (ofList []) (ofList []) () () () (ofList [0, 0])
    ⟨ofList [1, 0, 0, 1], 2, 2⟩ false ⟨ofList [1/2, 1/2], 1, 2⟩ ⟨ofList [2], 1, 1⟩ false
    (ofList []) (ofList [1, 2]) (ofList [1, 0, 0, 1]) (ofList [3]) (ofList [1/2])
    (rand2_sys (ofList [1/2, 1/2]) 1 2
      (rand2_x (ofList [1, 0, 0, 1]) (ofList [1/2, 1/2]) 1 2 (ofList [])) (ofList [1/2]))
    (rand2_rhs (ofList [1/2, 1/2]) 1 2 (ofList [1, 2]) (ofList [3]))
    rfl rfl rfl
  refine ⟨h.1, ?_⟩
  rw [h.2.1 0 (by decide)]
  norm_num [rand2_x, rand2_rhs, GEMM_NT, GEMV, Finset.sum_range_succ, ofList]

/-- C6. `htnorm_rand2` with a zero `phi`: for every `mean`, `a`, `omega` and every pair of
successful draws, once `x` is allocated, if every entry of `phi` is zero then the returned
`out` is `mean + y1.v` elementwise, whatever status and `alpha` the final solve
produces. -/
theorem htnorm_rand2_zero_phi {ρ : Type} (E : Env ρ) (v1 c1 v2 c2 x0 : Buf)
    (rng rng1 rng2 : ρ) (mean : Buf) (a : matrix_t) (a_diag : Bool) (phi omega : matrix_t)
    (o_diag : Bool) (out w1 k1 w2 k2 : Buf)
    (hd1 : E.mv_normal_rand_prec rng a.mat phi.ncol a_diag v1 c1 false = (0, w1, k1, rng1))
    (hd2 : E.mv_normal_rand_prec rng1 omega.mat phi.nrow o_diag v2 c2 true
      = (0, w2, k2, rng2))
    (hphi : ∀ p < phi.nrow, ∀ l < phi.ncol, phi.mat (p * phi.ncol + l) = 0) :
    ∀ i < phi.ncol,
      (htnorm_rand2 E (some ⟨some v1, some c1⟩) (some ⟨some v2, some c2⟩) (some x0) rng mean
          a a_diag phi omega o_diag out).2.1 i = mean i + w1 i := by
  intro i hi
  rw [rand2_after_draws E v1 c1 v2 c2 x0 rng rng1 rng2 mean a a_diag phi omega o_diag out
    w1 k1 w2 k2 hd1 hd2]
  split
  · show GEMV phi.ncol phi.nrow (-1) _ phi.nrow _ 1 1 (meanLoop w1 mean phi.ncol out) 1 i = _
    rw [GEMV_unit, if_pos hi, meanLoop_apply, if_pos hi]
    have hz : ∀ j ∈ Finset.range phi.nrow,
        rand2_x a.mat phi.mat phi.nrow phi.ncol x0 (i * phi.nrow + j)
          * (E.POSV phi.nrow 1
              (rand2_sys phi.mat phi.nrow phi.ncol
                (rand2_x a.mat phi.mat phi.nrow phi.ncol x0) k2) phi.nrow
              (rand2_rhs phi.mat phi.nrow phi.ncol w1 w2) 1).2.2 j = 0 := by
      intro j hj
      rw [rand2_x_entry _ _ _ _ _ _ _ hi (Finset.mem_range.mp hj)]
      have hs : ∑ l in Finset.range phi.ncol,
          a.mat (i * phi.ncol + l) * phi.mat (j * phi.ncol + l) = 0 := by
        apply Finset.sum_eq_zero
        intro l hl
        rw [hphi j (Finset.mem_range.mp hj) l (Finset.mem_range.mp hl), mul_zero]
      rw [hs, zero_mul]
    rw [Finset.sum_eq_zero hz]
    ring
  · show meanLoop w1 mean phi.ncol out i = _
    rw [meanLoop_apply, if_pos hi]
    ring

/-- The instance `phi = [[0, 0]]` with `a = [[2, 1], [1, 2]]`, `mean = [10, 20]` and the
draw `y1.v = [1, 2]`: `out` is `[11, 22]`. -/
theorem htnorm_rand2_zero_phi_witness :
    (htnorm_rand2 (exEnv2 2 (ofList [1, 2]) (ofList [1, 0, 0, 1]) (ofList [3]) (ofList [1/2])
        solve1) (some ⟨some (ofList []), some (ofList [])⟩)
        (some ⟨some (ofList []), some (ofList [])⟩) (some (ofList [])) () (ofList [10, 20])
        ⟨ofList [2, 1, 1, 2], 2, 2⟩ false ⟨ofList [0, 0], 1, 2⟩ ⟨ofList [2], 1, 1⟩ false
        (ofList [])).2.1 0 = 11 ∧
    (htnorm_rand2 (exEnv2 2 (ofList [1, 2]) (ofList [1, 0, 0, 1]) (ofList [3]) (ofList [1/2])
        solve1) (some ⟨some (ofList []), some (ofList [])⟩)
        (some ⟨some (ofList []), some (ofList [])⟩) (some (ofList [])) () (ofList [10, 20])
        ⟨ofList [2, 1, 1, 2], 2, 2⟩ false ⟨ofList [0, 0], 1, 2⟩ ⟨ofList [2], 1, 1⟩ false
        (ofList [])).2.1 1 = 22 := by
  have h := htnorm_rand2_zero_phi
    (exEnv2 2 (ofList [1, 2]) (ofList [1, 0, 0, 1]) (ofList [3]) (ofList [1/2]) solve1)
    (ofList []) (ofList []) (ofList []) (ofList []) (ofList []) () () () (ofList [10, 20])
    ⟨ofList [2, 1, 1, 2], 2, 2⟩ false ⟨ofList [0, 0], 1, 2⟩ ⟨ofList [2], 1, 1⟩ false
    (ofList []) (ofList [1, 2]) (ofList [1, 0, 0, 1]) (ofList [3]) (ofList [1/2])
    rfl rfl
    (by
      intro p hp l hl
      interval_cases p; interval_cases l <;> simp [ofList])
  refine ⟨?_, ?_⟩
  · rw [h 0 (by decide)]; norm_num [ofList]
  · rw [h 1 (by decide)]; norm_num [ofList]

/-! ## Status of the single-row path -/

/-- The single-row path never reports a numerical failure: after a successful draw and a
successful allocation `htnorm_rand` returns status `0`, whatever `cov`, `g` and `r` are. -/
theorem htnorm_rand_single_row_status {ρ : Type} (E : Env ρ) (gy g_cov_g : Option Buf)
    (c0 : Buf) (rng rng1 : ρ) (mean : Buf) (cov : matrix_t) (diag : Bool) (g : matrix_t)
    (r out y : Buf) (hrow : g.nrow = 1)
    (hdraw : E.mv_normal_rand rng mean cov.mat g.ncol diag out = (0, y, rng1)) :
    (htnorm_rand E gy (some c0) g_cov_g rng mean cov diag g r out).1 = 0 := by
  simp [htnorm_rand, hdraw, hrow, htnorm_rand_g_a_vec]

/-- The general path returns whatever non-zero status the solve reports, and leaves
`out` as the draw left it. -/
theorem htnorm_rand_general_failure {ρ : Type} (E : Env ρ) (gy0 c0 q0 cmat : Buf)
    (diag : Bool) (gmat : Buf) (gnrow gncol : Nat) (r y : Buf)
    (hfail : (E.POSV gnrow 1
        (rand_g_cov_g gmat gnrow gncol (mat_cov_g cmat diag gmat gnrow gncol c0) q0) gnrow
        (rand_gy gmat gnrow gncol r y gy0) 1).1 ≠ 0) :
    htnorm_rand_general E (some gy0) (some c0) (some q0) cmat diag gmat gnrow gncol r y
      = ((E.POSV gnrow 1
          (rand_g_cov_g gmat gnrow gncol (mat_cov_g cmat diag gmat gnrow gncol c0) q0) gnrow
          (rand_gy gmat gnrow gncol r y gy0) 1).1, y) := by
  simp [htnorm_rand_general, hfail]

/-- C7. At `n = 2`, `cov = I₂`, the single all-zero row `g = [0, 0]`, `r = 1` and a
successful draw `y = [1, 2]`, the scalar `g·cov·gᵀ` is `0` (not positive definite) and
`htnorm_rand` nevertheless returns status `0`. -/
theorem htnorm_rand_zero_row_returns_success :
    vec_g_cov_g true (ofList [1, 0, 0, 1]) 2 false (ofList [0, 0]) (ofList []) = 0 ∧
    (htnorm_rand (exEnv (ofList [1, 2]) solve1) none (some (ofList [])) none ()
      (ofList [0, 0]) ⟨ofList [1, 0, 0, 1], 2, 2⟩ false ⟨ofList [0, 0], 1, 2⟩ (ofList [1])
      (ofList [])).1 = 0 := by
  refine ⟨?_, ?_⟩
  · norm_num [vec_g_cov_g, vec_cov_g, dotLoop, SYMV, symTri, Finset.sum_range_succ, ofList]
  · simp [htnorm_rand, htnorm_rand_g_a_vec, exEnv, constDraw]

/-! ## The diagonal hint -/

theorem symTri_of_diagonal (upper : Bool) (a : Buf) (n : Nat) (h : IsDiagonal a n)
    (i j : Nat) (hi : i < n) (hj : j < n) (hij : j ≠ i) : symTri upper a n i j = 0 := by
  unfold symTri
  cases upper
  · by_cases hle : j ≤ i
    · simp [hle, h i hi j hj (Ne.symm hij)]
    · simp [hle, h j hj i hi hij]
  · by_cases hle : i ≤ j
    · simp [hle, h i hi j hj (Ne.symm hij)]
    · simp [hle, h j hj i hi hij]

/-- For a diagonal `cov`, the diagonal computation of the single-row `cov_g` equals the
symmetric matrix-vector product. -/
theorem vec_cov_g_diag_eq_dense (upper : Bool) (cov : Buf) (ncol : Nat) (g c0 : Buf)
    (h : IsDiagonal cov ncol) :
    vec_cov_g upper cov ncol true g c0 = vec_cov_g upper cov ncol false g c0 := by
  funext k
  by_cases hk : k < ncol
  · rw [vec_cov_g_entry upper cov ncol true g c0 k hk,
      vec_cov_g_entry upper cov ncol false g c0 k hk]
    simp only [if_true, Bool.false_eq_true, if_false]
    rw [Finset.sum_eq_single k]
    · have hs : symTri upper cov ncol k k = cov (ncol * k + k) := by
        unfold symTri
        rw [Nat.mul_comm ncol k]
        cases upper <;> simp
      rw [hs]
    · intro j hj hjk
      rw [symTri_of_diagonal upper cov ncol h k j hk (Finset.mem_range.mp hj) hjk, zero_mul]
    · intro hnk
      exact absurd (Finset.mem_range.mpr hk) hnk
  · simp [vec_cov_g, diagVecLoop_apply, SYMV, Nat.mod_one, hk]

/-- For a diagonal `cov`, the diagonal computation of the general `cov_g` equals the
dense product `cov·gᵀ`. -/
theorem mat_cov_g_diag_eq_dense (cmat gmat : Buf) (gnrow gncol : Nat) (c0 : Buf)
    (h : IsDiagonal cmat gncol) :
    mat_cov_g cmat true gmat gnrow gncol c0 = mat_cov_g cmat false gmat gnrow gncol c0 := by
  funext t
  simp only [mat_cov_g, if_true, Bool.false_eq_true, if_false, GEMM_NT]
  rw [diagMatLoop_apply]
  by_cases hc : t / gnrow < gncol ∧ t % gnrow < gnrow
  · rw [if_pos hc, if_pos hc, Finset.sum_eq_single (t / gnrow)]
    · rw [Nat.mul_comm gncol (t / gnrow), Nat.mul_comm gncol (t % gnrow)]
      ring
    · intro l hl hne
      rw [h (t / gnrow) hc.1 l (Finset.mem_range.mp hl) (Ne.symm hne), zero_mul]
    · intro hn
      exact absurd (Finset.mem_range.mpr hc.1) hn
  · rw [if_neg hc, if_neg hc]

/-- C8. Diagonal fast path equals dense computation in `htnorm_rand`, exact arithmetic:
for every `cov` whose off-diagonal entries are all zero, every `g`, `r` and the same
unconstrained draw under both settings of the flag, the `cov_g` computed with `diag`
set (single-row `cov[i,i]·g[i]`, general `cov[i,i]·g[j,i]`) equals the one computed with
`diag` unset, and the call returns the same status, `out` and generator state. -/
theorem htnorm_rand_diag_eq_dense {ρ : Type} (E : Env ρ) (gy cov_g g_cov_g : Option Buf)
    (rng : ρ) (mean : Buf) (cov : matrix_t) (g : matrix_t) (r out : Buf)
    (hdiag : IsDiagonal cov.mat g.ncol)
    (hdraw : E.mv_normal_rand rng mean cov.mat g.ncol true out
      = E.mv_normal_rand rng mean cov.mat g.ncol false out) :
    (∀ c0, vec_cov_g E.symv_upper cov.mat g.ncol true g.mat c0
      = vec_cov_g E.symv_upper cov.mat g.ncol false g.mat c0) ∧
    (∀ c0, mat_cov_g cov.mat true g.mat g.nrow g.ncol c0
      = mat_cov_g cov.mat false g.mat g.nrow g.ncol c0) ∧
    htnorm_rand E gy cov_g g_cov_g rng mean cov true g r out
      = htnorm_rand E gy cov_g g_cov_g rng mean cov false g r out := by
  have hv := fun c0 => vec_cov_g_diag_eq_dense E.symv_upper cov.mat g.ncol g.mat c0 hdiag
  have hm := fun c0 => mat_cov_g_diag_eq_dense cov.mat g.mat g.nrow g.ncol c0 hdiag
  refine ⟨hv, hm, ?_⟩
  have h1 : ∀ y, htnorm_rand_g_a_vec E.symv_upper cov_g cov.mat g.ncol true g.mat (r 0) y
      = htnorm_rand_g_a_vec E.symv_upper cov_g cov.mat g.ncol false g.mat (r 0) y := by
    intro y
    cases cov_g with
    | none => rfl
    | some c0 => simp only [htnorm_rand_g_a_vec, hv c0]
  have h2 : ∀ y, htnorm_rand_general E gy cov_g g_cov_g cov.mat true g.mat g.nrow g.ncol r y
      = htnorm_rand_general E gy cov_g g_cov_g cov.mat false g.mat g.nrow g.ncol r y := by
    intro y
    cases gy with
    | none => rfl
    | some gy0 =>
      cases cov_g with
      | none => rfl
      | some c0 =>
        cases g_cov_g with
        | none => rfl
        | some q0 => simp only [htnorm_rand_general, hm c0]
  simp only [htnorm_rand, hdraw, h1, h2]

/-- The instance `cov = diag(2, 3)` with two constraint rows `g = [[1, 1], [1, -1]]`: the
call returns the same result with `diag` set and unset. -/
theorem htnorm_rand_diag_eq_dense_witness :
    htnorm_rand (exEnv (ofList [1, 2]) idSolve) (some (ofList [])) (some (ofList []))
        (some (ofList [])) () (ofList [0, 0]) ⟨ofList [2, 0, 0, 3], 2, 2⟩ true
        ⟨ofList [1, 1, 1, -1], 2, 2⟩ (ofList [1, 2]) (ofList [])
      = htnorm_rand (exEnv (ofList [1, 2]) idSolve) (some (ofList [])) (some (ofList []))
        (some (ofList [])) () (ofList [0, 0]) ⟨ofList [2, 0, 0, 3], 2, 2⟩ false
        ⟨ofList [1, 1, 1, -1], 2, 2⟩ (ofList [1, 2]) (ofList []) :=
  (htnorm_rand_diag_eq_dense (exEnv (ofList [1, 2]) idSolve) (some (ofList []))
    (some (ofList [])) (some (ofList [])) () (ofList [0, 0]) ⟨ofList [2, 0, 0, 3], 2, 2⟩
    ⟨ofList [1, 1, 1, -1], 2, 2⟩ (ofList [1, 2]) (ofList [])
    (by
      intro i hi j hj hij
      interval_cases i <;> interval_cases j <;> simp_all [ofList])
    rfl).2.2

/-- C9. With `a_diag` set, `a = I₂` and `a' = [[1, 5], [5, 1]]` agree on the diagonal and
the sampler ignores the precision buffer altogether, yet `htnorm_rand2` forms a different
`x` (`[1, 1]` against `[6, 6]`) and returns a different `out` (`out[0] = -1` against
`out[0] = -23/13`): the off-diagonal entries of `a` are read. -/
theorem htnorm_rand2_reads_off_diagonal :
    SameDiag (ofList [1, 0, 0, 1]) (ofList [1, 5, 5, 1]) 2 ∧
    rand2_x (ofList [1, 0, 0, 1]) (ofList [1, 1]) 1 2 (ofList []) 0 = 1 ∧
    rand2_x (ofList [1, 5, 5, 1]) (ofList [1, 1]) 1 2 (ofList []) 0 = 6 ∧
    (htnorm_rand2 (exEnv2 2 (ofList [1, 2]) (ofList [1, 0, 0, 1]) (ofList [3]) (ofList [1])
        solve1) (some ⟨some (ofList []), some (ofList [])⟩)
        (some ⟨some (ofList []), some (ofList [])⟩) (some (ofList [])) () (ofList [0, 0])
        ⟨ofList [1, 0, 0, 1], 2, 2⟩ true ⟨ofList [1, 1], 1, 2⟩ ⟨ofList [1], 1, 1⟩ false
        (ofList [])).2.1 0 = -1 ∧
    (htnorm_rand2 (exEnv2 2 (ofList [1, 2]) (ofList [1, 0, 0, 1]) (ofList [3]) (ofList [1])
        solve1) (some ⟨some (ofList []), some (ofList [])⟩)
        (some ⟨some (ofList []), some (ofList [])⟩) (some (ofList [])) () (ofList [0, 0])
        ⟨ofList [1, 5, 5, 1], 2, 2⟩ true ⟨ofList [1, 1], 1, 2⟩ ⟨ofList [1], 1, 1⟩ false
        (ofList [])).2.1 0 = -23 / 13 := by
  refine ⟨?_, ?_, ?_, ?_, ?_⟩
  · intro i hi
    interval_cases i <;> simp [ofList]
  · norm_num [rand2_x, GEMM_NT, Finset.sum_range_succ, ofList]
  · norm_num [rand2_x, GEMM_NT, Finset.sum_range_succ, ofList]
  · norm_num [htnorm_rand2, exEnv2, constPrec, solve1, rand2_x, rand2_sys, rand2_rhs, GEMM,
      GEMM_NT, GEMV, meanLoop, Finset.sum_range_succ, ofList, Function.update]
  · norm_num [htnorm_rand2, exEnv2, constPrec, solve1, rand2_x, rand2_sys, rand2_rhs, GEMM,
      GEMM_NT, GEMV, meanLoop, Finset.sum_range_succ, ofList, Function.update]

/-- C10. Diagonal hint honoured by the correction step of `htnorm_rand`: with `diag` set,
for any two covariance buffers that agree on their `n` diagonal entries and the same
unconstrained draw, `g` and `r`, the call returns the same status, `out` and generator
state, on the single-row path and on the general path alike. -/
theorem htnorm_rand_diag_reads_diagonal_only {ρ : Type} (E : Env ρ)
    (gy cov_g g_cov_g : Option Buf) (rng : ρ) (mean : Buf) (cov cov' : matrix_t)
    (g : matrix_t) (r out : Buf)
    (hsame : SameDiag cov.mat cov'.mat g.ncol)
    (hdraw : E.mv_normal_rand rng mean cov.mat g.ncol true out
      = E.mv_normal_rand rng mean cov'.mat g.ncol true out) :
    htnorm_rand E gy cov_g g_cov_g rng mean cov true g r out
      = htnorm_rand E gy cov_g g_cov_g rng mean cov' true g r out := by
  have hv : ∀ c0, vec_cov_g E.symv_upper cov.mat g.ncol true g.mat c0
      = vec_cov_g E.symv_upper cov'.mat g.ncol true g.mat c0 := by
    intro c0
    funext k
    simp only [vec_cov_g, if_true, diagVecLoop_apply]
    by_cases hk : k < g.ncol
    · rw [if_pos hk, if_pos hk, hsame k hk]
    · rw [if_neg hk, if_neg hk]
  have hm : ∀ c0, mat_cov_g cov.mat true g.mat g.nrow g.ncol c0
      = mat_cov_g cov'.mat true g.mat g.nrow g.ncol c0 := by
    intro c0
    funext t
    simp only [mat_cov_g, if_true, diagMatLoop_apply]
    by_cases hc : t / g.nrow < g.ncol ∧ t % g.nrow < g.nrow
    · rw [if_pos hc, if_pos hc, hsame (t / g.nrow) hc.1]
    · rw [if_neg hc, if_neg hc]
  have h1 : ∀ y, htnorm_rand_g_a_vec E.symv_upper cov_g cov.mat g.ncol true g.mat (r 0) y
      = htnorm_rand_g_a_vec E.symv_upper cov_g cov'.mat g.ncol true g.mat (r 0) y := by
    intro y
    cases cov_g with
    | none => rfl
    | some c0 => simp only [htnorm_rand_g_a_vec, hv c0]
  have h2 : ∀ y, htnorm_rand_general E gy cov_g g_cov_g cov.mat true g.mat g.nrow g.ncol r y
      = htnorm_rand_general E gy cov_g g_cov_g cov'.mat true g.mat g.nrow g.ncol r y := by
    intro y
    cases gy with
    | none => rfl
    | some gy0 =>
      cases cov_g with
      | none => rfl
      | some c0 =>
        cases g_cov_g with
        | none => rfl
        | some q0 => simp only [htnorm_rand_general, hm c0]
  simp only [htnorm_rand, hdraw, h1, h2]

/-- The instance `cov = [[2, 0], [0, 3]]` against `cov' = [[2, 7], [-4, 3]]`, a single
constraint row `g = [1, 1]`, `diag` set: the same result. -/
theorem htnorm_rand_diag_reads_diagonal_only_witness :
    htnorm_rand (exEnv (ofList [1, 2]) idSolve) none (some (ofList [])) none ()
        (ofList [0, 0]) ⟨ofList [2, 0, 0, 3], 2, 2⟩ true ⟨ofList [1, 1], 1, 2⟩ (ofList [5])
        (ofList [])
      = htnorm_rand (exEnv (ofList [1, 2]) idSolve) none (some (ofList [])) none ()
        (ofList [0, 0]) ⟨ofList [2, 7, -4, 3], 2, 2⟩ true ⟨ofList [1, 1], 1, 2⟩ (ofList [5])
        (ofList []) :=
  htnorm_rand_diag_reads_diagonal_only (exEnv (ofList [1, 2]) idSolve) none
    (some (ofList [])) none () (ofList [0, 0]) ⟨ofList [2, 0, 0, 3], 2, 2⟩
    ⟨ofList [2, 7, -4, 3], 2, 2⟩ ⟨ofList [1, 1], 1, 2⟩ (ofList [5]) (ofList [])
    (by
      intro i hi
      interval_cases i <;> simp [ofList])
    rfl

/-! ## The instrumented runs compute the same results -/

theorem g_a_vec_run_result (upper : Bool) (cov_g : Option Buf) (cov : Buf) (ncol : Nat)
    (diag : Bool) (g : Buf) (r : ℚ) (out : Buf) :
    (htnorm_rand_g_a_vec_run upper cov_g cov ncol diag g r out).1
      = htnorm_rand_g_a_vec upper cov_g cov ncol diag g r out := by
  cases cov_g <;> rfl

theorem general_run_result {ρ : Type} (E : Env ρ) (gy cov_g g_cov_g : Option Buf)
    (cmat : Buf) (diag : Bool) (gmat : Buf) (gnrow gncol : Nat) (r out : Buf) :
    (htnorm_rand_general_run E gy cov_g g_cov_g cmat diag gmat gnrow gncol r out).1
      = htnorm_rand_general E gy cov_g g_cov_g cmat diag gmat gnrow gncol r out := by
  cases gy with
  | none => rfl
  | some gy0 =>
    cases cov_g with
    | none => rfl
    | some c0 =>
      cases g_cov_g with
      | none => rfl
      | some q0 =>
        simp only [htnorm_rand_general_run, htnorm_rand_general]
        split <;> rfl

theorem htnorm_rand_run_result {ρ : Type} (E : Env ρ) (gy cov_g g_cov_g : Option Buf)
    (rng : ρ) (mean : Buf) (cov : matrix_t) (diag : Bool) (g : matrix_t) (r out : Buf) :
    (htnorm_rand_run E gy cov_g g_cov_g rng mean cov diag g r out).1
      = htnorm_rand E gy cov_g g_cov_g rng mean cov diag g r out := by
  simp only [htnorm_rand_run, htnorm_rand]
  split
  · rfl
  · split
    · simp only [g_a_vec_run_result]
    · simp only [general_run_result]

theorem htnorm_rand2_run_result {ρ : Type} (E : Env ρ) (y1 y2 : Option mvn_output_t)
    (x : Option Buf) (rng : ρ) (mean : Buf) (a : matrix_t) (a_diag : Bool)
    (phi omega : matrix_t) (o_diag : Bool) (out : Buf) :
    (htnorm_rand2_run E y1 y2 x rng mean a a_diag phi omega o_diag out).1
      = htnorm_rand2 E y1 y2 x rng mean a a_diag phi omega o_diag out := by
  unfold htnorm_rand2_run htnorm_rand2
  split
  · split
    · simp only []
      split
      · rfl
      · split
        · rfl
        · split
          · rfl
          · split <;> rfl
    · rfl
  · rfl
/-! ## Allocation failure -/

/-- The events of the single-row path. -/
theorem g_a_vec_run_events (upper : Bool) (cov_g : Option Buf) (cov : Buf) (ncol : Nat)
    (diag : Bool) (g : Buf) (r : ℚ) (out : Buf) :
    (htnorm_rand_g_a_vec_run upper cov_g cov ncol diag g r out).2
      = match cov_g with
        | none => [Ev.allocFail Blk.cov_g]
        | some _ =>
            [Ev.alloc Blk.cov_g, Ev.step Step.loop,
              Ev.step (if diag then Step.loop else Step.SYMV), Ev.step Step.loop,
              Ev.free Blk.cov_g] := by
  cases cov_g <;> rfl

/-- C11. Allocation failure is reported as the distinguished status.  For `htnorm_rand`
and for `htnorm_rand2`, on every input: if some allocation of the run is refused, the
call returns `HTNORM_ALLOC_ERROR = -100` and no computation step follows the refused
allocation.  An allocation is refused, after a successful draw in `htnorm_rand`, when
`cov_g` is `NULL` on the single-row path or one of `gy`, `cov_g`, `g_cov_g` is on the
general path; in `htnorm_rand2`, when `y1` or `y2` or one of their buffers is `NULL`, or,
after two successful draws, when `x` is. -/
theorem alloc_failure_reported :
    HTNORM_ALLOC_ERROR = -100 ∧
    (∀ {ρ : Type} (E : Env ρ) (gy cov_g g_cov_g : Option Buf) (rng : ρ) (mean : Buf)
        (cov : matrix_t) (diag : Bool) (g : matrix_t) (r out : Buf),
      (hasAllocFail (htnorm_rand_run E gy cov_g g_cov_g rng mean cov diag g r out).2 = true →
        (htnorm_rand E gy cov_g g_cov_g rng mean cov diag g r out).1 = HTNORM_ALLOC_ERROR ∧
        noStepAfterFail
          (htnorm_rand_run E gy cov_g g_cov_g rng mean cov diag g r out).2 = true) ∧
      ((E.mv_normal_rand rng mean cov.mat g.ncol diag out).1 = 0 →
        (g.nrow = 1 ∧ cov_g = none) ∨
          (g.nrow ≠ 1 ∧ (gy = none ∨ cov_g = none ∨ g_cov_g = none)) →
        hasAllocFail
          (htnorm_rand_run E gy cov_g g_cov_g rng mean cov diag g r out).2 = true)) ∧
    (∀ {ρ : Type} (E : Env ρ) (y1 y2 : Option mvn_output_t) (x : Option Buf) (rng : ρ)
        (mean : Buf) (a : matrix_t) (a_diag : Bool) (phi omega : matrix_t) (o_diag : Bool)
        (out : Buf),
      (hasAllocFail
          (htnorm_rand2_run E y1 y2 x rng mean a a_diag phi omega o_diag out).2 = true →
        (htnorm_rand2 E y1 y2 x rng mean a a_diag phi omega o_diag out).1
            = HTNORM_ALLOC_ERROR ∧
        noStepAfterFail
          (htnorm_rand2_run E y1 y2 x rng mean a a_diag phi omega o_diag out).2 = true) ∧
      (mvnAllocated y1 = false ∨ mvnAllocated y2 = false →
        hasAllocFail
          (htnorm_rand2_run E y1 y2 x rng mean a a_diag phi omega o_diag out).2 = true) ∧
      (∀ v1 c1 v2 c2, y1 = some ⟨some v1, some c1⟩ → y2 = some ⟨some v2, some c2⟩ →
        (E.mv_normal_rand_prec rng a.mat phi.ncol a_diag v1 c1 false).1 = 0 →
        (E.mv_normal_rand_prec
          (E.mv_normal_rand_prec rng a.mat phi.ncol a_diag v1 c1 false).2.2.2
          omega.mat phi.nrow o_diag v2 c2 true).1 = 0 →
        x = none →
        hasAllocFail
          (htnorm_rand2_run E y1 y2 x rng mean a a_diag phi omega o_diag out).2 = true)) := by
  refine ⟨rfl, ?_, ?_⟩
  · intro ρ E gy cov_g g_cov_g rng mean cov diag g r out
    rw [← htnorm_rand_run_result]
    refine ⟨?_, ?_⟩
    · unfold htnorm_rand_run
      simp only []
      split
      · simp [hasAllocFail]
      · split
        · cases cov_g <;> cases diag <;>
            simp [htnorm_rand_g_a_vec_run, hasAllocFail, noStepAfterFail, stepCount]
        · cases gy with
          | none => simp [htnorm_rand_general_run, hasAllocFail, noStepAfterFail, stepCount]
          | some gy0 =>
            cases cov_g with
            | none =>
              simp [htnorm_rand_general_run, hasAllocFail, noStepAfterFail, stepCount]
            | some c0 =>
              cases g_cov_g with
              | none =>
                simp [htnorm_rand_general_run, hasAllocFail, noStepAfterFail, stepCount]
              | some q0 =>
                simp only [htnorm_rand_general_run]
                split <;> cases diag <;> simp [hasAllocFail]
    · intro hd hcase
      unfold htnorm_rand_run
      simp only [hd, ne_eq, not_true_eq_false, if_false]
      rcases hcase with ⟨h1, hc⟩ | ⟨h1, hc⟩
      · subst hc
        simp [h1, htnorm_rand_g_a_vec_run, hasAllocFail]
      · simp only [h1, if_false]
        rcases hc with hc | hc | hc
        · subst hc
          simp [htnorm_rand_general_run, hasAllocFail]
        · subst hc
          cases gy <;> simp [htnorm_rand_general_run, hasAllocFail]
        · subst hc
          cases gy <;> cases cov_g <;> simp [htnorm_rand_general_run, hasAllocFail]
  · intro ρ E y1 y2 x rng mean a a_diag phi omega o_diag out
    rw [← htnorm_rand2_run_result]
    refine ⟨?_, ?_, ?_⟩
    · rcases y1 with _ | ⟨_ | v1, _ | c1⟩ <;> rcases y2 with _ | ⟨_ | v2, _ | c2⟩ <;>
        first
        | (simp [htnorm_rand2_run, mvn_output_new_events, mvn_output_free_events,
            hasAllocFail, noStepAfterFail, stepCount]; done)
        | (simp only [htnorm_rand2_run, mvn_output_new_events, mvn_output_free_events]
           split
           · simp [hasAllocFail]
           · split
             · simp [hasAllocFail]
             · cases x with
               | none => simp [hasAllocFail, noStepAfterFail, stepCount]
               | some x0 =>
                 simp only []
                 split <;> simp [hasAllocFail])
    · intro h
      rcases y1 with _ | ⟨_ | v1, _ | c1⟩ <;> rcases y2 with _ | ⟨_ | v2, _ | c2⟩ <;>
        simp [mvnAllocated] at h <;>
        simp [htnorm_rand2_run, mvn_output_new_events, mvn_output_free_events, hasAllocFail]
    · intro v1 c1 v2 c2 h1 h2 hd1 hd2 hx
      subst h1 h2 hx
      simp [htnorm_rand2_run, mvn_output_new_events, mvn_output_free_events, hasAllocFail,
        hd1, hd2]

/-- Two refused allocations: the general path of `htnorm_rand` with `cov_g = NULL`, and
`htnorm_rand2` with `x = NULL` after two successful draws; both calls return `-100`. -/
theorem alloc_failure_reported_witness :
    (htnorm_rand (exEnv (ofList [1, 2]) idSolve) (some (ofList [])) none (some (ofList []))
      () (ofList [0, 0]) ⟨ofList [1, 0, 0, 1], 2, 2⟩ false ⟨ofList [1, 0, 0, 1], 2, 2⟩
      (ofList [1, 2]) (ofList [])).1 = -100 ∧
    (htnorm_rand2 (exEnv2 2 (ofList [1, 2]) (ofList [1, 0, 0, 1]) (ofList [3]) (ofList [1])
      solve1) (some ⟨some (ofList []), some (ofList [])⟩)
      (some ⟨some (ofList []), some (ofList [])⟩) none () (ofList [0, 0])
      ⟨ofList [1, 0, 0, 1], 2, 2⟩ false ⟨ofList [1, 1], 1, 2⟩ ⟨ofList [1], 1, 1⟩ false
      (ofList [])).1 = -100 :=
  ⟨((alloc_failure_reported.2.1 (exEnv (ofList [1, 2]) idSolve) (some (ofList [])) none
      (some (ofList [])) () (ofList [0, 0]) ⟨ofList [1, 0, 0, 1], 2, 2⟩ false
      ⟨ofList [1, 0, 0, 1], 2, 2⟩ (ofList [1, 2]) (ofList [])).1
      (by simp [htnorm_rand_run, htnorm_rand_general_run, exEnv, constDraw,
        hasAllocFail])).1,
   ((alloc_failure_reported.2.2 (exEnv2 2 (ofList [1, 2]) (ofList [1, 0, 0, 1]) (ofList [3])
      (ofList [1]) solve1) (some ⟨some (ofList []), some (ofList [])⟩)
      (some ⟨some (ofList []), some (ofList [])⟩) none () (ofList [0, 0])
      ⟨ofList [1, 0, 0, 1], 2, 2⟩ false ⟨ofList [1, 1], 1, 2⟩ ⟨ofList [1], 1, 1⟩ false
      (ofList [])).1
      (by simp [htnorm_rand2_run, mvn_output_new_events, mvn_output_free_events, exEnv2,
        constPrec, hasAllocFail])).1⟩

/-! ## Failed draws -/

/-- C12. `htnorm_rand` aborts on a failed draw: if `mv_normal_rand` returns a non-zero
status `s`, then for every number of constraint rows, one included, `htnorm_rand`
returns exactly `s`, leaves `out` and the generator as the sampler left them, and its run
consists of the draw alone: no allocation and no correction step. -/
theorem htnorm_rand_draw_failure {ρ : Type} (E : Env ρ) (gy cov_g g_cov_g : Option Buf)
    (rng rng1 : ρ) (mean : Buf) (cov : matrix_t) (diag : Bool) (g : matrix_t)
    (r out y : Buf) (s : Int) (hs : s ≠ 0)
    (hdraw : E.mv_normal_rand rng mean cov.mat g.ncol diag out = (s, y, rng1)) :
    htnorm_rand E gy cov_g g_cov_g rng mean cov diag g r out = (s, y, rng1) ∧
    (htnorm_rand_run E gy cov_g g_cov_g rng mean cov diag g r out).2
      = [Ev.step Step.mv_normal_rand] := by
  constructor
  · simp [htnorm_rand, hdraw, hs]
  · simp [htnorm_rand_run, hdraw, hs]

/-- A sampler that fails with status `3` after writing `[9, 9]`: with one constraint row
and with two, `htnorm_rand` returns `3` and `out = [9, 9]`. -/
theorem htnorm_rand_draw_failure_witness :
    htnorm_rand
        (statusEnv 3 (ofList [9, 9]) 0 (ofList []) (ofList []) 0 (ofList []) (ofList [])
          idSolve)
        (some (ofList [])) (some (ofList [])) (some (ofList [])) () (ofList [0, 0])
        ⟨ofList [1, 0, 0, 1], 2, 2⟩ false ⟨ofList [1, 1], 1, 2⟩ (ofList [1]) (ofList [])
      = (3, ofList [9, 9], ()) ∧
    htnorm_rand
        (statusEnv 3 (ofList [9, 9]) 0 (ofList []) (ofList []) 0 (ofList []) (ofList [])
          idSolve)
        (some (ofList [])) (some (ofList [])) (some (ofList [])) () (ofList [0, 0])
        ⟨ofList [1, 0, 0, 1], 2, 2⟩ false ⟨ofList [1, 0, 0, 1], 2, 2⟩ (ofList [1, 2])
        (ofList [])
      = (3, ofList [9, 9], ()) :=
  ⟨(htnorm_rand_draw_failure _ (some (ofList [])) (some (ofList [])) (some (ofList [])) () ()
      (ofList [0, 0]) ⟨ofList [1, 0, 0, 1], 2, 2⟩ false ⟨ofList [1, 1], 1, 2⟩ (ofList [1])
      (ofList []) (ofList [9, 9]) 3 (by decide) rfl).1,
   (htnorm_rand_draw_failure _ (some (ofList [])) (some (ofList [])) (some (ofList [])) () ()
      (ofList [0, 0]) ⟨ofList [1, 0, 0, 1], 2, 2⟩ false ⟨ofList [1, 0, 0, 1], 2, 2⟩
      (ofList [1, 2]) (ofList []) (ofList [9, 9]) 3 (by decide) rfl).1⟩

/-- C13. `htnorm_rand2` aborts on a failed draw, with both aggregates allocated: if the
first draw (on `a`, dimension `pncol`, `full_inv` unset) returns a non-zero status, the
call returns that status and its run holds one draw only; if the first succeeds and the
second (on `omega`, dimension `pnrow`, `full_inv` set) returns a non-zero status, the call
returns that status.  In both cases, and when the allocation of `y1`, `y2` or `x` fails,
the buffer `out` is the one given on entry. -/
theorem htnorm_rand2_abort {ρ : Type} (E : Env ρ) (y1 y2 : Option mvn_output_t)
    (x : Option Buf) (rng : ρ) (mean : Buf) (a : matrix_t) (a_diag : Bool)
    (phi omega : matrix_t) (o_diag : Bool) (out : Buf) :
    (∀ v1 c1 v2 c2, y1 = some ⟨some v1, some c1⟩ → y2 = some ⟨some v2, some c2⟩ →
      ((E.mv_normal_rand_prec rng a.mat phi.ncol a_diag v1 c1 false).1 ≠ 0 →
        htnorm_rand2 E y1 y2 x rng mean a a_diag phi omega o_diag out
          = ((E.mv_normal_rand_prec rng a.mat phi.ncol a_diag v1 c1 false).1, out,
              (E.mv_normal_rand_prec rng a.mat phi.ncol a_diag v1 c1 false).2.2.2) ∧
        (htnorm_rand2_run E y1 y2 x rng mean a a_diag phi omega o_diag out).2
          = [Ev.alloc Blk.y1, Ev.alloc Blk.y2, Ev.step Step.mv_normal_rand_prec,
              Ev.free Blk.y2, Ev.free Blk.y1]) ∧
      ((E.mv_normal_rand_prec rng a.mat phi.ncol a_diag v1 c1 false).1 = 0 →
        (E.mv_normal_rand_prec
          (E.mv_normal_rand_prec rng a.mat phi.ncol a_diag v1 c1 false).2.2.2
          omega.mat phi.nrow o_diag v2 c2 true).1 ≠ 0 →
        htnorm_rand2 E y1 y2 x rng mean a a_diag phi omega o_diag out
          = ((E.mv_normal_rand_prec
                (E.mv_normal_rand_prec rng a.mat phi.ncol a_diag v1 c1 false).2.2.2
                omega.mat phi.nrow o_diag v2 c2 true).1, out,
              (E.mv_normal_rand_prec
                (E.mv_normal_rand_prec rng a.mat phi.ncol a_diag v1 c1 false).2.2.2
                omega.mat phi.nrow o_diag v2 c2 true).2.2.2)) ∧
      ((E.mv_normal_rand_prec rng a.mat phi.ncol a_diag v1 c1 false).1 = 0 →
        (E.mv_normal_rand_prec
          (E.mv_normal_rand_prec rng a.mat phi.ncol a_diag v1 c1 false).2.2.2
          omega.mat phi.nrow o_diag v2 c2 true).1 = 0 →
        x = none →
        htnorm_rand2 E y1 y2 x rng mean a a_diag phi omega o_diag out
          = (HTNORM_ALLOC_ERROR, out,
              (E.mv_normal_rand_prec
                (E.mv_normal_rand_prec rng a.mat phi.ncol a_diag v1 c1 false).2.2.2
                omega.mat phi.nrow o_diag v2 c2 true).2.2.2))) ∧
    (mvnAllocated y1 = false ∨ mvnAllocated y2 = false →
      htnorm_rand2 E y1 y2 x rng mean a a_diag phi omega o_diag out
        = (HTNORM_ALLOC_ERROR, out, rng)) := by
  refine ⟨?_, ?_⟩
  · intro v1 c1 v2 c2 h1 h2
    subst h1 h2
    refine ⟨?_, ?_, ?_⟩
    · intro hd1
      constructor
      · simp [htnorm_rand2, hd1]
      · simp [htnorm_rand2_run, mvn_output_new_events, mvn_output_free_events, hd1]
    · intro hd1 hd2
      simp [htnorm_rand2, hd1, hd2]
    · intro hd1 hd2 hx
      subst hx
      simp [htnorm_rand2, hd1, hd2]
  · intro h
    rcases y1 with _ | ⟨_ | v1, _ | c1⟩ <;> rcases y2 with _ | ⟨_ | v2, _ | c2⟩ <;>
      simp [mvnAllocated] at h <;> simp [htnorm_rand2]

/-- Three aborted runs of `htnorm_rand2` on the entry buffer `out = [7, 8]`: the first
draw fails with status `4`; the second fails with status `5`; the aggregate `y2` lacks
its `cov` buffer. -/
theorem htnorm_rand2_abort_witness :
    htnorm_rand2 (statusEnv 0 (ofList []) 4 (ofList [1, 2]) (ofList []) 0 (ofList [3])
        (ofList [1]) solve1) (some ⟨some (ofList []), some (ofList [])⟩)
        (some ⟨some (ofList []), some (ofList [])⟩) (some (ofList [])) () (ofList [0, 0])
        ⟨ofList [1, 0, 0, 1], 2, 2⟩ false ⟨ofList [1, 1], 1, 2⟩ ⟨ofList [1], 1, 1⟩ false
        (ofList [7, 8])
      = (4, ofList [7, 8], ()) ∧
    htnorm_rand2 (statusEnv 0 (ofList []) 0 (ofList [1, 2]) (ofList []) 5 (ofList [3])
        (ofList [1]) solve1) (some ⟨some (ofList []), some (ofList [])⟩)
        (some ⟨some (ofList []), some (ofList [])⟩) (some (ofList [])) () (ofList [0, 0])
        ⟨ofList [1, 0, 0, 1], 2, 2⟩ false ⟨ofList [1, 1], 1, 2⟩ ⟨ofList [1], 1, 1⟩ false
        (ofList [7, 8])
      = (5, ofList [7, 8], ()) ∧
    htnorm_rand2 (statusEnv 0 (ofList []) 0 (ofList [1, 2]) (ofList []) 0 (ofList [3])
        (ofList [1]) solve1) (some ⟨some (ofList []), some (ofList [])⟩)
        (some ⟨some (ofList []), none⟩) (some (ofList [])) () (ofList [0, 0])
        ⟨ofList [1, 0, 0, 1], 2, 2⟩ false ⟨ofList [1, 1], 1, 2⟩ ⟨ofList [1], 1, 1⟩ false
        (ofList [7, 8])
      = (-100, ofList [7, 8], ()) :=
  ⟨(((htnorm_rand2_abort (statusEnv 0 (ofList []) 4 (ofList [1, 2]) (ofList []) 0
        (ofList [3]) (ofList [1]) solve1) (some ⟨some (ofList []), some (ofList [])⟩)
        (some ⟨some (ofList []), some (ofList [])⟩) (some (ofList [])) () (ofList [0, 0])
        ⟨ofList [1, 0, 0, 1], 2, 2⟩ false ⟨ofList [1, 1], 1, 2⟩ ⟨ofList [1], 1, 1⟩ false
        (ofList [7, 8])).1 (ofList []) (ofList []) (ofList []) (ofList []) rfl rfl).1
        (by decide)).1,
   ((htnorm_rand2_abort (statusEnv 0 (ofList []) 0 (ofList [1, 2]) (ofList []) 5
        (ofList [3]) (ofList [1]) solve1) (some ⟨some (ofList []), some (ofList [])⟩)
        (some ⟨some (ofList []), some (ofList [])⟩) (some (ofList [])) () (ofList [0, 0])
        ⟨ofList [1, 0, 0, 1], 2, 2⟩ false ⟨ofList [1, 1], 1, 2⟩ ⟨ofList [1], 1, 1⟩ false
        (ofList [7, 8])).1 (ofList []) (ofList []) (ofList []) (ofList []) rfl rfl).2.1
        rfl (by decide),
   (htnorm_rand2_abort (statusEnv 0 (ofList []) 0 (ofList [1, 2]) (ofList []) 0
        (ofList [3]) (ofList [1]) solve1) (some ⟨some (ofList []), some (ofList [])⟩)
        (some ⟨some (ofList []), none⟩) (some (ofList [])) () (ofList [0, 0])
        ⟨ofList [1, 0, 0, 1], 2, 2⟩ false ⟨ofList [1, 1], 1, 2⟩ ⟨ofList [1], 1, 1⟩ false
        (ofList [7, 8])).2 (Or.inr rfl)⟩

/-! ## Factorization failure -/

/-- The result of `htnorm_rand2` when every allocation and both draws succeed and the
solve reports a failure. -/
theorem rand2_solve_failure {ρ : Type} (E : Env ρ) (v1 c1 v2 c2 x0 : Buf)
    (rng rng1 rng2 : ρ) (mean : Buf) (a : matrix_t) (a_diag : Bool) (phi omega : matrix_t)
    (o_diag : Bool) (out w1 k1 w2 k2 : Buf)
    (hd1 : E.mv_normal_rand_prec rng a.mat phi.ncol a_diag v1 c1 false = (0, w1, k1, rng1))
    (hd2 : E.mv_normal_rand_prec rng1 omega.mat phi.nrow o_diag v2 c2 true
      = (0, w2, k2, rng2))
    (hfail : (E.POSV phi.nrow 1
        (rand2_sys phi.mat phi.nrow phi.ncol
          (rand2_x a.mat phi.mat phi.nrow phi.ncol x0) k2) phi.nrow
        (rand2_rhs phi.mat phi.nrow phi.ncol w1 w2) 1).1 ≠ 0) :
    htnorm_rand2 E (some ⟨some v1, some c1⟩) (some ⟨some v2, some c2⟩) (some x0) rng mean a
        a_diag phi omega o_diag out
      = ((E.POSV phi.nrow 1
            (rand2_sys phi.mat phi.nrow phi.ncol
              (rand2_x a.mat phi.mat phi.nrow phi.ncol x0) k2) phi.nrow
            (rand2_rhs phi.mat phi.nrow phi.ncol w1 w2) 1).1,
          meanLoop w1 mean phi.ncol out, rng2) := by
  rw [rand2_after_draws E v1 c1 v2 c2 x0 rng rng1 rng2 mean a a_diag phi omega o_diag out
    w1 k1 w2 k2 hd1 hd2, if_neg hfail]

/-- C18. Output on factorization failure, with every allocation and draw succeeding:
when the solve returns a non-zero status `s`, the general path of `htnorm_rand` returns
`s` with `out` equal to the unconstrained draw `y`, and `htnorm_rand2` returns `s` with
`out[i] = mean[i] + y1.v[i]` for `i < pncol` and `out` untouched beyond; no multiple of
`cov_g` or of `x` is added. -/
theorem solve_failure_output :
    (∀ {ρ : Type} (E : Env ρ) (gy0 c0 q0 : Buf) (rng rng1 : ρ) (mean : Buf) (cov : matrix_t)
        (diag : Bool) (g : matrix_t) (r out y fa b : Buf) (s : Int),
      g.nrow ≠ 1 →
      E.mv_normal_rand rng mean cov.mat g.ncol diag out = (0, y, rng1) →
      E.POSV g.nrow 1
          (rand_g_cov_g g.mat g.nrow g.ncol
            (mat_cov_g cov.mat diag g.mat g.nrow g.ncol c0) q0) g.nrow
          (rand_gy g.mat g.nrow g.ncol r y gy0) 1 = (s, fa, b) →
      s ≠ 0 →
      htnorm_rand E (some gy0) (some c0) (some q0) rng mean cov diag g r out
        = (s, y, rng1)) ∧
    (∀ {ρ : Type} (E : Env ρ) (v1 c1 v2 c2 x0 : Buf) (rng rng1 rng2 : ρ) (mean : Buf)
        (a : matrix_t) (a_diag : Bool) (phi omega : matrix_t) (o_diag : Bool)
        (out w1 k1 w2 k2 fa b : Buf) (s : Int),
      E.mv_normal_rand_prec rng a.mat phi.ncol a_diag v1 c1 false = (0, w1, k1, rng1) →
      E.mv_normal_rand_prec rng1 omega.mat phi.nrow o_diag v2 c2 true = (0, w2, k2, rng2) →
      E.POSV phi.nrow 1
          (rand2_sys phi.mat phi.nrow phi.ncol
            (rand2_x a.mat phi.mat phi.nrow phi.ncol x0) k2) phi.nrow
          (rand2_rhs phi.mat phi.nrow phi.ncol w1 w2) 1 = (s, fa, b) →
      s ≠ 0 →
      (htnorm_rand2 E (some ⟨some v1, some c1⟩) (some ⟨some v2, some c2⟩) (some x0) rng
          mean a a_diag phi omega o_diag out).1 = s ∧
      ∀ i,
        (htnorm_rand2 E (some ⟨some v1, some c1⟩) (some ⟨some v2, some c2⟩) (some x0) rng
            mean a a_diag phi omega o_diag out).2.1 i
          = if i < phi.ncol then mean i + w1 i else out i) := by
  refine ⟨?_, ?_⟩
  · intro ρ E gy0 c0 q0 rng rng1 mean cov diag g r out y fa b s hrow hdraw hsolve hs
    have hfail : (E.POSV g.nrow 1
        (rand_g_cov_g g.mat g.nrow g.ncol
          (mat_cov_g cov.mat diag g.mat g.nrow g.ncol c0) q0) g.nrow
        (rand_gy g.mat g.nrow g.ncol r y gy0) 1).1 ≠ 0 := by
      rw [hsolve]; exact hs
    simp only [htnorm_rand, hdraw, ne_eq, not_true_eq_false, if_false, hrow,
      htnorm_rand_general_failure E gy0 c0 q0 cov.mat diag g.mat g.nrow g.ncol r y hfail,
      hsolve]
  · intro ρ E v1 c1 v2 c2 x0 rng rng1 rng2 mean a a_diag phi omega o_diag out w1 k1 w2 k2
      fa b s hd1 hd2 hsolve hs
    have hfail : (E.POSV phi.nrow 1
        (rand2_sys phi.mat phi.nrow phi.ncol
          (rand2_x a.mat phi.mat phi.nrow phi.ncol x0) k2) phi.nrow
        (rand2_rhs phi.mat phi.nrow phi.ncol w1 w2) 1).1 ≠ 0 := by
      rw [hsolve]; exact hs
    rw [rand2_solve_failure E v1 c1 v2 c2 x0 rng rng1 rng2 mean a a_diag phi omega o_diag
      out w1 k1 w2 k2 hd1 hd2 hfail, hsolve]
    refine ⟨rfl, ?_⟩
    intro i
    show meanLoop w1 mean phi.ncol out i = _
    rw [meanLoop_apply, add_comm]

/-- A failing solve (status `2`): `htnorm_rand` with two constraint rows returns `2` and
the draw `[1, 2]`; `htnorm_rand2` returns `2` and `out[0] = mean[0] + y1.v[0] = 11`. -/
theorem solve_failure_output_witness :
    htnorm_rand (exEnv (ofList [1, 2]) failSolve) (some (ofList [])) (some (ofList []))
        (some (ofList [])) () (ofList [0, 0]) ⟨ofList [1, 0, 0, 1], 2, 2⟩ false
        ⟨ofList [1, 1, 1, 1], 2, 2⟩ (ofList [1, 2]) (ofList [])
      = (2, ofList [1, 2], ()) ∧
    (htnorm_rand2 (exEnv2 2 (ofList [1, 2]) (ofList [1, 0, 0, 1]) (ofList [3]) (ofList [1])
        failSolve) (some ⟨some (ofList []), some (ofList [])⟩)
        (some ⟨some (ofList []), some (ofList [])⟩) (some (ofList [])) () (ofList [10, 20])
        ⟨ofList [1, 0, 0, 1], 2, 2⟩ false ⟨ofList [1, 1], 1, 2⟩ ⟨ofList [1], 1, 1⟩ false
        (ofList [])).2.1 0 = 11 := by
  refine ⟨?_, ?_⟩
  · exact solve_failure_output.1 (exEnv (ofList [1, 2]) failSolve) (ofList []) (ofList [])
      (ofList []) () () (ofList [0, 0]) ⟨ofList [1, 0, 0, 1], 2, 2⟩ false
      ⟨ofList [1, 1, 1, 1], 2, 2⟩ (ofList [1, 2]) (ofList []) (ofList [1, 2]) _ _ 2
      (by decide) rfl rfl (by decide)
  · rw [(solve_failure_output.2 (exEnv2 2 (ofList [1, 2]) (ofList [1, 0, 0, 1]) (ofList [3])
      (ofList [1]) failSolve) (ofList []) (ofList []) (ofList []) (ofList []) (ofList [])
      () () () (ofList [10, 20]) ⟨ofList [1, 0, 0, 1], 2, 2⟩ false ⟨ofList [1, 1], 1, 2⟩
      ⟨ofList [1], 1, 1⟩ false (ofList []) (ofList [1, 2]) (ofList [1, 0, 0, 1]) (ofList [3])
      (ofList [1]) _ _ 2 rfl rfl rfl (by decide)).2 0]
    norm_num [ofList]

/-! ## Buffer lifetime -/

/-- C15. Every buffer the entry points allocate is released exactly once before the
call returns, on every path.  Replaying the events of any run of `htnorm_rand` or of
`htnorm_rand2` on a list of live blocks that holds none of the call's own blocks never
acquires a live block, never releases a block that is not live, and ends with the list
it started from; the blocks are released in the reverse of the order in which they were
acquired, which on the complete runs is `g_cov_g`, `cov_g`, `gy` and `x`, `y2`, `y1`. -/
theorem buffers_released :
    (∀ {ρ : Type} (E : Env ρ) (gy cov_g g_cov_g : Option Buf) (rng : ρ) (mean : Buf)
        (cov : matrix_t) (diag : Bool) (g : matrix_t) (r out : Buf) (h0 : List Blk),
      Blk.gy ∉ h0 → Blk.cov_g ∉ h0 → Blk.g_cov_g ∉ h0 →
      heapRun (htnorm_rand_run E gy cov_g g_cov_g rng mean cov diag g r out).2 h0 = some h0 ∧
      freesOf (htnorm_rand_run E gy cov_g g_cov_g rng mean cov diag g r out).2
        = (allocsOf (htnorm_rand_run E gy cov_g g_cov_g rng mean cov diag g r out).2).reverse ∧
      ((E.mv_normal_rand rng mean cov.mat g.ncol diag out).1 = 0 → g.nrow ≠ 1 →
        gy ≠ none → cov_g ≠ none → g_cov_g ≠ none →
        freesOf (htnorm_rand_run E gy cov_g g_cov_g rng mean cov diag g r out).2
          = [Blk.g_cov_g, Blk.cov_g, Blk.gy])) ∧
    (∀ {ρ : Type} (E : Env ρ) (y1 y2 : Option mvn_output_t) (x : Option Buf) (rng : ρ)
        (mean : Buf) (a : matrix_t) (a_diag : Bool) (phi omega : matrix_t) (o_diag : Bool)
        (out : Buf) (h0 : List Blk),
      Blk.x ∉ h0 → Blk.y1 ∉ h0 → Blk.y2 ∉ h0 →
      heapRun (htnorm_rand2_run E y1 y2 x rng mean a a_diag phi omega o_diag out).2 h0
        = some h0 ∧
      freesOf (htnorm_rand2_run E y1 y2 x rng mean a a_diag phi omega o_diag out).2
        = (allocsOf
            (htnorm_rand2_run E y1 y2 x rng mean a a_diag phi omega o_diag out).2).reverse ∧
      (∀ v1 c1 v2 c2, y1 = some ⟨some v1, some c1⟩ → y2 = some ⟨some v2, some c2⟩ →
        (E.mv_normal_rand_prec rng a.mat phi.ncol a_diag v1 c1 false).1 = 0 →
        (E.mv_normal_rand_prec
          (E.mv_normal_rand_prec rng a.mat phi.ncol a_diag v1 c1 false).2.2.2
          omega.mat phi.nrow o_diag v2 c2 true).1 = 0 →
        x ≠ none →
        freesOf (htnorm_rand2_run E y1 y2 x rng mean a a_diag phi omega o_diag out).2
          = [Blk.x, Blk.y2, Blk.y1])) := by
  refine ⟨?_, ?_⟩
  · intro ρ E gy cov_g g_cov_g rng mean cov diag g r out h0 h1 h2 h3
    refine ⟨?_, ?_, ?_⟩
    · unfold htnorm_rand_run
      simp only []
      split
      · simp [heapRun, heapStep]
      · split
        · cases cov_g <;> simp [htnorm_rand_g_a_vec_run, heapRun, heapStep, h2]
        · cases gy with
          | none => simp [htnorm_rand_general_run, heapRun, heapStep]
          | some gy0 =>
            cases cov_g with
            | none => simp [htnorm_rand_general_run, heapRun, heapStep, h1]
            | some c0 =>
              cases g_cov_g with
              | none => simp [htnorm_rand_general_run, heapRun, heapStep, h1, h2]
              | some q0 =>
                simp only [htnorm_rand_general_run]
                split <;> simp [heapRun, heapStep, h1, h2, h3]
    · unfold htnorm_rand_run
      simp only []
      split
      · simp [freesOf, allocsOf]
      · split
        · cases cov_g <;> simp [htnorm_rand_g_a_vec_run, freesOf, allocsOf]
        · cases gy with
          | none => simp [htnorm_rand_general_run, freesOf, allocsOf]
          | some gy0 =>
            cases cov_g with
            | none => simp [htnorm_rand_general_run, freesOf, allocsOf]
            | some c0 =>
              cases g_cov_g with
              | none => simp [htnorm_rand_general_run, freesOf, allocsOf]
              | some q0 =>
                simp only [htnorm_rand_general_run]
                split <;> simp [freesOf, allocsOf]
    · intro hd hrow hgy hc hq
      obtain ⟨gy0, rfl⟩ := Option.ne_none_iff_exists'.mp hgy
      obtain ⟨c0, rfl⟩ := Option.ne_none_iff_exists'.mp hc
      obtain ⟨q0, rfl⟩ := Option.ne_none_iff_exists'.mp hq
      simp only [htnorm_rand_run, hd, ne_eq, not_true_eq_false, if_false, hrow,
        htnorm_rand_general_run]
      split <;> simp [freesOf]
  · intro ρ E y1 y2 x rng mean a a_diag phi omega o_diag out h0 h1 h2 h3
    refine ⟨?_, ?_, ?_⟩
    · rcases y1 with _ | ⟨_ | v1, _ | c1⟩ <;> rcases y2 with _ | ⟨_ | v2, _ | c2⟩ <;>
        first
        | (simp [htnorm_rand2_run, mvn_output_new_events, mvn_output_free_events,
            heapRun, heapStep, h2, h3]; done)
        | (simp only [htnorm_rand2_run, mvn_output_new_events, mvn_output_free_events]
           split
           · simp [heapRun, heapStep, h2, h3]
           · split
             · simp [heapRun, heapStep, h2, h3]
             · cases x with
               | none => simp [heapRun, heapStep, h2, h3]
               | some x0 =>
                 simp only []
                 split <;> simp [heapRun, heapStep, h1, h2, h3])
    · rcases y1 with _ | ⟨_ | v1, _ | c1⟩ <;> rcases y2 with _ | ⟨_ | v2, _ | c2⟩ <;>
        first
        | (simp [htnorm_rand2_run, mvn_output_new_events, mvn_output_free_events,
            freesOf, allocsOf]; done)
        | (simp only [htnorm_rand2_run, mvn_output_new_events, mvn_output_free_events]
           split
           · simp [freesOf, allocsOf]
           · split
             · simp [freesOf, allocsOf]
             · cases x with
               | none => simp [freesOf, allocsOf]
               | some x0 =>
                 simp only []
                 split <;> simp [freesOf, allocsOf])
    · intro v1 c1 v2 c2 e1 e2 hd1 hd2 hx
      subst e1 e2
      obtain ⟨x0, rfl⟩ := Option.ne_none_iff_exists'.mp hx
      simp only [htnorm_rand2_run, mvn_output_new_events, mvn_output_free_events, hd1, hd2,
        ne_eq, not_true_eq_false, if_false]
      split <;> simp [freesOf]

/-- The complete run of the general path of `htnorm_rand` and a run of `htnorm_rand2`
whose second draw fails, replayed on an empty heap: both end with an empty heap. -/
theorem buffers_released_witness :
    heapRun (htnorm_rand_run (exEnv (ofList [0, 0]) idSolve) (some (ofList []))
        (some (ofList [])) (some (ofList [])) () (ofList [0, 0])
        ⟨ofList [1, 0, 0, 1], 2, 2⟩ false ⟨ofList [1, 0, 0, 1], 2, 2⟩ (ofList [1, 2])
        (ofList [])).2 [] = some [] ∧
    heapRun (htnorm_rand2_run (statusEnv 0 (ofList []) 0 (ofList [1, 2]) (ofList []) 5
        (ofList [3]) (ofList [1]) solve1) (some ⟨some (ofList []), some (ofList [])⟩)
        (some ⟨some (ofList []), some (ofList [])⟩) (some (ofList [])) () (ofList [0, 0])
        ⟨ofList [1, 0, 0, 1], 2, 2⟩ false ⟨ofList [1, 1], 1, 2⟩ ⟨ofList [1], 1, 1⟩ false
        (ofList [7, 8])).2 [] = some [] :=
  ⟨(buffers_released.1 (exEnv (ofList [0, 0]) idSolve) (some (ofList []))
      (some (ofList [])) (some (ofList [])) () (ofList [0, 0])
      ⟨ofList [1, 0, 0, 1], 2, 2⟩ false ⟨ofList [1, 0, 0, 1], 2, 2⟩ (ofList [1, 2])
      (ofList []) [] (by simp) (by simp) (by simp)).1,
   (buffers_released.2 (statusEnv 0 (ofList []) 0 (ofList [1, 2]) (ofList []) 5
      (ofList [3]) (ofList [1]) solve1) (some ⟨some (ofList []), some (ofList [])⟩)
      (some ⟨some (ofList []), some (ofList [])⟩) (some (ofList [])) () (ofList [0, 0])
      ⟨ofList [1, 0, 0, 1], 2, 2⟩ false ⟨ofList [1, 1], 1, 2⟩ ⟨ofList [1], 1, 1⟩ false
      (ofList [7, 8]) [] (by simp) (by simp) (by simp)).1⟩

/-! ## The system matrix of the general path -/

theorem sum_comm4 (A B I K : Finset ℕ) (F : ℕ → ℕ → ℕ → ℕ → ℚ) :
    ∑ a in A, ∑ b in B, ∑ i in I, ∑ k in K, F a b i k
      = ∑ i in I, ∑ k in K, ∑ a in A, ∑ b in B, F a b i k := by
  calc ∑ a in A, ∑ b in B, ∑ i in I, ∑ k in K, F a b i k
      = ∑ a in A, ∑ i in I, ∑ b in B, ∑ k in K, F a b i k :=
        Finset.sum_congr rfl (fun a _ => Finset.sum_comm)
    _ = ∑ i in I, ∑ a in A, ∑ b in B, ∑ k in K, F a b i k := Finset.sum_comm
    _ = ∑ i in I, ∑ a in A, ∑ k in K, ∑ b in B, F a b i k :=
        Finset.sum_congr rfl (fun i _ => Finset.sum_congr rfl (fun a _ => Finset.sum_comm))
    _ = ∑ i in I, ∑ k in K, ∑ a in A, ∑ b in B, F a b i k :=
        Finset.sum_congr rfl (fun i _ => Finset.sum_comm)

theorem sum_comm3 (A B I : Finset ℕ) (F : ℕ → ℕ → ℕ → ℚ) :
    ∑ a in A, ∑ b in B, ∑ i in I, F a b i = ∑ i in I, ∑ a in A, ∑ b in B, F a b i := by
  calc ∑ a in A, ∑ b in B, ∑ i in I, F a b i
      = ∑ a in A, ∑ i in I, ∑ b in B, F a b i :=
        Finset.sum_congr rfl (fun a _ => Finset.sum_comm)
    _ = ∑ i in I, ∑ a in A, ∑ b in B, F a b i := Finset.sum_comm

/-- The quadratic form of the dense `g·cov·gᵀ` at `x` is the quadratic form of `cov` at
`gᵀ·x`. -/
theorem quad_g_cov_g_dense (cmat gmat : Buf) (gnrow gncol : Nat) (c0 q0 x : Buf) :
    ∑ a in Finset.range gnrow, ∑ b in Finset.range gnrow,
        x a * rand_g_cov_g gmat gnrow gncol (mat_cov_g cmat false gmat gnrow gncol c0) q0
          (a * gnrow + b) * x b
      = ∑ i in Finset.range gncol, ∑ k in Finset.range gncol,
          (∑ a in Finset.range gnrow, x a * gmat (a * gncol + i)) * cmat (i * gncol + k)
            * (∑ b in Finset.range gnrow, x b * gmat (b * gncol + k)) := by
  have hL : ∀ a ∈ Finset.range gnrow, ∀ b ∈ Finset.range gnrow,
      x a * rand_g_cov_g gmat gnrow gncol (mat_cov_g cmat false gmat gnrow gncol c0) q0
          (a * gnrow + b) * x b
        = ∑ i in Finset.range gncol, ∑ k in Finset.range gncol,
            x a * gmat (a * gncol + i) * cmat (i * gncol + k) * gmat (b * gncol + k) * x b := by
    intro a ha b hb
    rw [rand_g_cov_g_entry _ _ _ _ _ _ _ (Finset.mem_range.mp ha) (Finset.mem_range.mp hb),
      Finset.mul_sum, Finset.sum_mul]
    apply Finset.sum_congr rfl
    intro i hi
    rw [mat_cov_g_entry _ _ _ _ _ _ _ _ (Finset.mem_range.mp hi) (Finset.mem_range.mp hb)]
    simp only [Bool.false_eq_true, if_false]
    rw [Finset.mul_sum, Finset.mul_sum, Finset.sum_mul]
    apply Finset.sum_congr rfl
    intro k _
    ring
  have hR : ∀ i ∈ Finset.range gncol, ∀ k ∈ Finset.range gncol,
      (∑ a in Finset.range gnrow, x a * gmat (a * gncol + i)) * cmat (i * gncol + k)
          * (∑ b in Finset.range gnrow, x b * gmat (b * gncol + k))
        = ∑ a in Finset.range gnrow, ∑ b in Finset.range gnrow,
            x a * gmat (a * gncol + i) * cmat (i * gncol + k) * gmat (b * gncol + k) * x b := by
    intro i _ k _
    rw [Finset.sum_mul, Finset.sum_mul]
    apply Finset.sum_congr rfl
    intro a _
    rw [Finset.mul_sum]
    apply Finset.sum_congr rfl
    intro b _
    ring
  rw [Finset.sum_congr rfl (fun a ha => Finset.sum_congr rfl (fun b hb => hL a ha b hb)),
    Finset.sum_congr rfl (fun i hi => Finset.sum_congr rfl (fun k hk => hR i hi k hk))]
  exact sum_comm4 _ _ _ _ _

/-- The quadratic form of the diagonal-path `g·cov_g` at `x` is `Σ cov[i,i]·(gᵀ·x)[i]²`. -/
theorem quad_g_cov_g_diag (cmat gmat : Buf) (gnrow gncol : Nat) (c0 q0 x : Buf) :
    ∑ a in Finset.range gnrow, ∑ b in Finset.range gnrow,
        x a * rand_g_cov_g gmat gnrow gncol (mat_cov_g cmat true gmat gnrow gncol c0) q0
          (a * gnrow + b) * x b
      = ∑ i in Finset.range gncol,
          cmat (i * gncol + i)
            * ((∑ a in Finset.range gnrow, x a * gmat (a * gncol + i))
                * (∑ b in Finset.range gnrow, x b * gmat (b * gncol + i))) := by
  have hL : ∀ a ∈ Finset.range gnrow, ∀ b ∈ Finset.range gnrow,
      x a * rand_g_cov_g gmat gnrow gncol (mat_cov_g cmat true gmat gnrow gncol c0) q0
          (a * gnrow + b) * x b
        = ∑ i in Finset.range gncol,
            cmat (i * gncol + i) * (x a * gmat (a * gncol + i) * (x b * gmat (b * gncol + i))) := by
    intro a ha b hb
    rw [rand_g_cov_g_entry _ _ _ _ _ _ _ (Finset.mem_range.mp ha) (Finset.mem_range.mp hb),
      Finset.mul_sum, Finset.sum_mul]
    apply Finset.sum_congr rfl
    intro i hi
    rw [mat_cov_g_entry _ _ _ _ _ _ _ _ (Finset.mem_range.mp hi) (Finset.mem_range.mp hb)]
    simp only [if_true]
    rw [Nat.mul_comm gncol i, Nat.mul_comm gncol b]
    ring
  have hR : ∀ i ∈ Finset.range gncol,
      cmat (i * gncol + i)
          * ((∑ a in Finset.range gnrow, x a * gmat (a * gncol + i))
              * (∑ b in Finset.range gnrow, x b * gmat (b * gncol + i)))
        = ∑ a in Finset.range gnrow, ∑ b in Finset.range gnrow,
            cmat (i * gncol + i) * (x a * gmat (a * gncol + i) * (x b * gmat (b * gncol + i))) := by
    intro i _
    rw [Finset.sum_mul, Finset.mul_sum]
    apply Finset.sum_congr rfl
    intro a _
    rw [Finset.mul_sum, Finset.mul_sum]
  rw [Finset.sum_congr rfl (fun a ha => Finset.sum_congr rfl (fun b hb => hL a ha b hb)),
    Finset.sum_congr rfl hR]
  exact sum_comm3 _ _ _ _

/-- C14. The system matrix of the general path is symmetric positive definite by
construction: for every symmetric positive-definite `cov` and every `g` of full row
rank, the matrix `g_cov_g = g·cov_g` that `htnorm_rand` hands to the solve is symmetric and
positive definite, with `cov_g` computed densely or by the diagonal fast path. -/
theorem g_cov_g_symm_posDef (cmat : Buf) (diag : Bool) (gmat : Buf) (gnrow gncol : Nat)
    (c0 q0 : Buf) (hsym : IsSymm cmat gncol) (hpd : IsPosDef cmat gncol)
    (hrank : FullRowRank gmat gnrow gncol) :
    IsSymm (rand_g_cov_g gmat gnrow gncol (mat_cov_g cmat diag gmat gnrow gncol c0) q0)
      gnrow ∧
    IsPosDef (rand_g_cov_g gmat gnrow gncol (mat_cov_g cmat diag gmat gnrow gncol c0) q0)
      gnrow := by
  refine ⟨rand_g_cov_g_symm cmat diag gmat gnrow gncol c0 q0 hsym, ?_⟩
  intro x hx
  obtain ⟨i0, hi0, hz0⟩ := hrank x hx
  cases diag
  · rw [quad_g_cov_g_dense]
    exact hpd (fun i => ∑ a in Finset.range gnrow, x a * gmat (a * gncol + i))
      ⟨i0, hi0, hz0⟩
  · rw [quad_g_cov_g_diag]
    apply Finset.sum_pos'
    · intro i hi
      exact mul_nonneg (le_of_lt (posDef_diag_pos cmat gncol hpd i (Finset.mem_range.mp hi)))
        (mul_self_nonneg _)
    · exact ⟨i0, Finset.mem_range.mpr hi0,
        mul_pos (posDef_diag_pos cmat gncol hpd i0 hi0) (mul_self_pos.mpr hz0)⟩

/-- The instance `cov = [[2, 1], [1, 2]]`, `g = [[1, 0], [1, 1]]`: the matrix handed to the
solve is symmetric and positive definite. -/
theorem g_cov_g_symm_posDef_witness :
    IsSymm (rand_g_cov_g (ofList [1, 0, 1, 1]) 2 2
      (mat_cov_g (ofList [2, 1, 1, 2]) false (ofList [1, 0, 1, 1]) 2 2 (ofList []))
      (ofList [])) 2 ∧
    IsPosDef (rand_g_cov_g (ofList [1, 0, 1, 1]) 2 2
      (mat_cov_g (ofList [2, 1, 1, 2]) false (ofList [1, 0, 1, 1]) 2 2 (ofList []))
      (ofList [])) 2 :=
  g_cov_g_symm_posDef (ofList [2, 1, 1, 2]) false (ofList [1, 0, 1, 1]) 2 2 (ofList [])
    (ofList [])
    (by
      intro i hi j hj
      interval_cases i <;> interval_cases j <;> simp [ofList])
    (by
      intro x hx
      obtain ⟨i, hi, hxi⟩ := hx
      have h0 : 0 ≤ (x 0 + x 1) * (x 0 + x 1) := mul_self_nonneg _
      have h3 : 0 < x 0 * x 0 + x 1 * x 1 := by
        have h1 : 0 ≤ x 0 * x 0 := mul_self_nonneg _
        have h2 : 0 ≤ x 1 * x 1 := mul_self_nonneg _
        interval_cases i
        · have := mul_self_pos.mpr hxi; linarith
        · have := mul_self_pos.mpr hxi; linarith
      simp [Finset.sum_range_succ, ofList]
      linarith)
    (by
      intro x hx
      obtain ⟨a, ha, hxa⟩ := hx
      by_cases h1 : x 1 = 0
      · refine ⟨0, by decide, ?_⟩
        have hx0 : x 0 ≠ 0 := by
          interval_cases a
          · exact hxa
          · exact absurd h1 hxa
        simpa [Finset.sum_range_succ, ofList, h1] using hx0
      · refine ⟨1, by decide, ?_⟩
        simpa [Finset.sum_range_succ, ofList] using h1)

/-! ## Draws that already satisfy the constraint -/

/-- A symmetric positive-definite system with a zero right-hand side has only the zero
solution. -/
theorem solvesUpper_zero (a : Buf) (m : Nat) (b alpha : Buf) (hsym : IsSymm a m)
    (hpd : IsPosDef a m) (hsol : SolvesUpper a m b alpha) (hb : ∀ i < m, b i = 0) :
    ∀ j < m, alpha j = 0 := by
  by_contra hne
  push_neg at hne
  obtain ⟨j, hj, hjne⟩ := hne
  have hpos := hpd alpha ⟨j, hj, hjne⟩
  have hz : ∑ i in Finset.range m, ∑ k in Finset.range m, alpha i * a (i * m + k) * alpha k
      = 0 := by
    apply Finset.sum_eq_zero
    intro i hi
    have hrow := hsol i (Finset.mem_range.mp hi)
    rw [hb i (Finset.mem_range.mp hi)] at hrow
    have e : ∑ k in Finset.range m, alpha i * a (i * m + k) * alpha k
        = alpha i * ∑ k in Finset.range m, symTri true a m i k * alpha k := by
      rw [Finset.mul_sum]
      apply Finset.sum_congr rfl
      intro k hk
      rw [symTri_of_symm true a m hsym i k (Finset.mem_range.mp hi) (Finset.mem_range.mp hk)]
      ring
    rw [e, hrow, mul_zero]
  rw [hz] at hpos
  exact lt_irrefl 0 hpos

/-- C17. The constraint transform fixes draws that already satisfy the constraint, exact
arithmetic and successful allocations: if the draw `y` satisfies `g·y = r`, then
`htnorm_rand` returns status `0` and `out = y`.  On the single-row path this holds
whenever the scalar `g·cov·gᵀ` is not zero; on the general path whenever the solve
reports success with an exact solution and `g·cov·gᵀ` is symmetric positive definite. -/
theorem htnorm_rand_fixes_constrained_draw :
    (∀ {ρ : Type} (E : Env ρ) (gy g_cov_g : Option Buf) (c0 : Buf) (rng rng1 : ρ)
        (mean : Buf) (cov : matrix_t) (diag : Bool) (g : matrix_t) (r out y : Buf),
      g.nrow = 1 →
      E.mv_normal_rand rng mean cov.mat g.ncol diag out = (0, y, rng1) →
      ∑ i in Finset.range g.ncol, g.mat i * y i = r 0 →
      vec_g_cov_g E.symv_upper cov.mat g.ncol diag g.mat c0 ≠ 0 →
      htnorm_rand E gy (some c0) g_cov_g rng mean cov diag g r out = (0, y, rng1)) ∧
    (∀ {ρ : Type} (E : Env ρ) (gy0 c0 q0 : Buf) (rng rng1 : ρ) (mean : Buf) (cov : matrix_t)
        (diag : Bool) (g : matrix_t) (r out y fa alpha : Buf),
      g.nrow ≠ 1 →
      E.mv_normal_rand rng mean cov.mat g.ncol diag out = (0, y, rng1) →
      (∀ a < g.nrow, ∑ i in Finset.range g.ncol, g.mat (a * g.ncol + i) * y i = r a) →
      E.POSV g.nrow 1
          (rand_g_cov_g g.mat g.nrow g.ncol
            (mat_cov_g cov.mat diag g.mat g.nrow g.ncol c0) q0) g.nrow
          (rand_gy g.mat g.nrow g.ncol r y gy0) 1 = (0, fa, alpha) →
      SolvesUpper
          (rand_g_cov_g g.mat g.nrow g.ncol
            (mat_cov_g cov.mat diag g.mat g.nrow g.ncol c0) q0) g.nrow
          (rand_gy g.mat g.nrow g.ncol r y gy0) alpha →
      IsSymm (rand_g_cov_g g.mat g.nrow g.ncol
          (mat_cov_g cov.mat diag g.mat g.nrow g.ncol c0) q0) g.nrow →
      IsPosDef (rand_g_cov_g g.mat g.nrow g.ncol
          (mat_cov_g cov.mat diag g.mat g.nrow g.ncol c0) q0) g.nrow →
      htnorm_rand E (some gy0) (some c0) (some q0) rng mean cov diag g r out
        = (0, y, rng1)) := by
  refine ⟨?_, ?_⟩
  · intro ρ E gy g_cov_g c0 rng rng1 mean cov diag g r out y hrow hdraw hcons _
    have hout : (htnorm_rand_g_a_vec E.symv_upper (some c0) cov.mat g.ncol diag g.mat (r 0)
        y).2 = y := by
      funext k
      rw [g_a_vec_out, hcons, sub_self, zero_mul, add_zero]
      split <;> rfl
    have hst : (htnorm_rand_g_a_vec E.symv_upper (some c0) cov.mat g.ncol diag g.mat (r 0)
        y).1 = 0 := by
      simp [htnorm_rand_g_a_vec]
    simp only [htnorm_rand, hdraw, ne_eq, not_true_eq_false, if_false, hrow, if_true, hout,
      hst]
  · intro ρ E gy0 c0 q0 rng rng1 mean cov diag g r out y fa alpha hrow hdraw hcons hsolve
      hexact hsym hpd
    have hb : ∀ a < g.nrow, rand_gy g.mat g.nrow g.ncol r y gy0 a = 0 := by
      intro a ha
      rw [rand_gy_entry _ _ _ _ _ _ _ ha, hcons a ha, sub_self]
    have hz := solvesUpper_zero _ g.nrow _ alpha hsym hpd hexact hb
    have hout : GEMV g.ncol g.nrow 1 (mat_cov_g cov.mat diag g.mat g.nrow g.ncol c0) g.nrow
        alpha 1 1 y 1 = y := by
      funext k
      rw [GEMV_unit]
      split
      · have hs : ∑ j in Finset.range g.nrow,
            mat_cov_g cov.mat diag g.mat g.nrow g.ncol c0 (k * g.nrow + j) * alpha j = 0 := by
          apply Finset.sum_eq_zero
          intro j hj
          rw [hz j (Finset.mem_range.mp hj), mul_zero]
        rw [hs]
        ring
      · rfl
    simp only [htnorm_rand, hdraw, ne_eq, not_true_eq_false, if_false, hrow,
      general_success E gy0 c0 q0 cov.mat diag g.mat g.nrow g.ncol r y fa alpha hsolve, hout]

/-- Two draws that already meet their constraints: `y = [1, 2, 2]` with `g = [1, 1, 1]`,
`r = 5`, `cov = I₃` on the single-row path, and `y = [1, 2]` with `g = I₂`, `r = [1, 2]`,
`cov = I₂` on the general path; both calls return the draw. -/
theorem htnorm_rand_fixes_constrained_draw_witness :
    htnorm_rand (exEnv (ofList [1, 2, 2]) idSolve) none (some (ofList [])) none ()
        (ofList [0, 0, 0]) ⟨ofList [1, 0, 0, 0, 1, 0, 0, 0, 1], 3, 3⟩ false
        ⟨ofList [1, 1, 1], 1, 3⟩ (ofList [5]) (ofList [])
      = (0, ofList [1, 2, 2], ()) ∧
    htnorm_rand (exEnv (ofList [1, 2]) idSolve) (some (ofList [])) (some (ofList []))
        (some (ofList [])) () (ofList [0, 0]) ⟨ofList [1, 0, 0, 1], 2, 2⟩ false
        ⟨ofList [1, 0, 0, 1], 2, 2⟩ (ofList [1, 2]) (ofList [])
      = (0, ofList [1, 2], ()) :=
  ⟨htnorm_rand_fixes_constrained_draw.1 (exEnv (ofList [1, 2, 2]) idSolve) none none
      (ofList []) () () (ofList [0, 0, 0]) ⟨ofList [1, 0, 0, 0, 1, 0, 0, 0, 1], 3, 3⟩ false
      ⟨ofList [1, 1, 1], 1, 3⟩ (ofList [5]) (ofList []) (ofList [1, 2, 2]) rfl rfl
      (by norm_num [Finset.sum_range_succ, ofList])
      (by norm_num [vec_g_cov_g, vec_cov_g, dotLoop, SYMV, symTri, Finset.sum_range_succ,
        ofList, exEnv]),
   htnorm_rand_fixes_constrained_draw.2 (exEnv (ofList [1, 2]) idSolve) (ofList [])
      (ofList []) (ofList []) () () (ofList [0, 0]) ⟨ofList [1, 0, 0, 1], 2, 2⟩ false
      ⟨ofList [1, 0, 0, 1], 2, 2⟩ (ofList [1, 2]) (ofList []) (ofList [1, 2])
      (rand_g_cov_g (ofList [1, 0, 0, 1]) 2 2
        (mat_cov_g (ofList [1, 0, 0, 1]) false (ofList [1, 0, 0, 1]) 2 2 (ofList []))
        (ofList []))
      (rand_gy (ofList [1, 0, 0, 1]) 2 2 (ofList [1, 2]) (ofList [1, 2]) (ofList []))
      (by decide)
      rfl
      (by
        intro a ha
        interval_cases a <;> norm_num [Finset.sum_range_succ, ofList])
      rfl
      (by
        intro i hi
        interval_cases i <;>
          simp [symTri, rand_g_cov_g, rand_gy, mat_cov_g, GEMM, GEMM_NT, GEMV, memcpy,
            Finset.sum_range_succ, ofList])
      (by
        intro i hi j hj
        interval_cases i <;> interval_cases j <;>
          simp [rand_g_cov_g, mat_cov_g, GEMM, GEMM_NT, Finset.sum_range_succ, ofList])
      (by
        intro x hx
        obtain ⟨i, hi, hxi⟩ := hx
        have h1 : 0 ≤ x 0 * x 0 := mul_self_nonneg _
        have h2 : 0 ≤ x 1 * x 1 := mul_self_nonneg _
        have h3 : 0 < x 0 * x 0 + x 1 * x 1 := by
          interval_cases i
          · have := mul_self_pos.mpr hxi; linarith
          · have := mul_self_pos.mpr hxi; linarith
        simp [rand_g_cov_g, mat_cov_g, GEMM, GEMM_NT, Finset.sum_range_succ, ofList]
        linarith)⟩

/-! ## Array accesses -/

theorem mem_descIdx (n i : Nat) : i ∈ descIdx n ↔ i < n := by
  induction n with
  | zero => simp [descIdx]
  | succ n ih =>
    rw [descIdx, List.mem_cons, ih]
    omega

theorem descIdx_eq (n : Nat) : descIdx n = (List.range n).reverse := by
  induction n with
  | zero => rfl
  | succ n ih => rw [descIdx, ih, List.range_succ, List.reverse_append]; rfl

/-- The loops of the embedding run their bodies over `descIdx`. -/
theorem dotLoop_descIdx (g x : Buf) (n : Nat) (acc : ℚ) :
    dotLoop g x n acc = (descIdx n).foldl (fun s i => s + g i * x i) acc := by
  induction n generalizing acc with
  | zero => rfl
  | succ n ih => rw [dotLoop, descIdx, List.foldl_cons, ih]

theorem diagVecLoop_descIdx (cov : Buf) (ncol : Nat) (g : Buf) (n : Nat) (b : Buf) :
    diagVecLoop cov ncol g n b
      = (descIdx n).foldl (fun c i => Function.update c i (cov (ncol * i + i) * g i)) b := by
  induction n generalizing b with
  | zero => rfl
  | succ n ih => rw [diagVecLoop, descIdx, List.foldl_cons, ih]

theorem corrLoop_descIdx (alpha : ℚ) (g cov_g : Buf) (ncol n : Nat) (out : Buf) :
    corrLoop alpha g cov_g ncol n out
      = (descIdx n).foldl
          (fun o i => Function.update o i (o i + alpha * (cov_g i / dotLoop g cov_g ncol 0)))
          out := by
  induction n generalizing out with
  | zero => rfl
  | succ n ih => rw [corrLoop, descIdx, List.foldl_cons, ih]

theorem meanLoop_descIdx (v mean : Buf) (n : Nat) (out : Buf) :
    meanLoop v mean n out
      = (descIdx n).foldl (fun o i => Function.update o i (v i + mean i)) out := by
  induction n generalizing out with
  | zero => rfl
  | succ n ih => rw [meanLoop, descIdx, List.foldl_cons, ih]

theorem size_t_le (x : Nat) : size_t x ≤ x := Nat.mod_le x _

theorem diag_offset_lt (n i : Nat) (hi : i < n) : n * i + i < n * n := by
  have h := Nat.mul_le_mul_left n (Nat.succ_le_of_lt hi)
  rw [Nat.mul_succ] at h
  omega

theorem row_offset_lt (m n i j : Nat) (hi : i < n) (hj : j < m) : m * i + j < m * n := by
  have h := Nat.mul_le_mul_left m (Nat.succ_le_of_lt hi)
  rw [Nat.mul_succ] at h
  omega

theorem col_offset_lt (m n i j : Nat) (hi : i < n) (hj : j < m) : n * j + i < m * n := by
  have h := Nat.mul_le_mul_left n (Nat.succ_le_of_lt hj)
  rw [Nat.mul_succ, Nat.mul_comm n m] at h
  omega

/-- C16. All explicit array accesses are in bounds.  With `cov` of length `n·n`, `g` of
length `m·n`, `mean` and `out` of length `n` and the scratch buffers of their allocated
lengths, every offset used by the loops of `htnorm_rand_g_a_vec` (where `m = 1`), by the
diagonal loops of `htnorm_rand` and by the loop `out[i] = y1->v[i] + mean[i]` of
`htnorm_rand2`, computed in `size_t`, is less than the length of the array it indexes;
and the descending loops `for (i = n; i--; )` visit exactly `n - 1`, ..., `0`. -/
theorem accesses_in_bounds :
    (∀ n, descIdx n = (List.range n).reverse) ∧
    (∀ ncol diag, ∀ p ∈ g_a_vec_accesses ncol diag, p.2 < randLen 1 ncol p.1) ∧
    (∀ gnrow gncol, ∀ p ∈ diag_mat_accesses gnrow gncol, p.2 < randLen gnrow gncol p.1) ∧
    (∀ pncol, ∀ p ∈ mean_accesses pncol, p.2 < rand2Len pncol p.1) := by
  refine ⟨descIdx_eq, ?_, ?_, ?_⟩
  · intro ncol diag p hp
    simp only [g_a_vec_accesses, List.mem_append, List.mem_flatMap, mem_descIdx, List.mem_cons,
      List.mem_singleton, List.not_mem_nil, or_false] at hp
    rcases hp with (⟨i, hi, rfl | rfl⟩ | hp) | ⟨i, hi, ⟨j, hj, rfl | rfl⟩ | rfl | rfl⟩
    · simpa [randLen] using hi
    · simpa [randLen] using hi
    · cases diag
      · simp at hp
      · simp only [if_true, List.mem_flatMap, mem_descIdx, List.mem_cons, List.mem_singleton,
          List.not_mem_nil, or_false] at hp
        rcases hp with ⟨i, hi, rfl | rfl | rfl⟩
        · exact lt_of_le_of_lt (size_t_le _) (diag_offset_lt ncol i hi)
        · simpa [randLen] using hi
        · simpa [randLen] using hi
    · simpa [randLen] using hj
    · simpa [randLen] using hj
    · simpa [randLen] using hi
    · simpa [randLen] using hi
  · intro gnrow gncol p hp
    simp only [diag_mat_accesses, List.mem_flatMap, List.mem_range, List.mem_cons,
      List.mem_singleton, List.not_mem_nil, or_false] at hp
    rcases hp with ⟨i, hi, j, hj, rfl | rfl | rfl⟩
    · exact lt_of_le_of_lt (size_t_le _) (diag_offset_lt gncol i hi)
    · exact lt_of_le_of_lt (size_t_le _) (col_offset_lt gnrow gncol i j hi hj)
    · exact lt_of_le_of_lt (size_t_le _) (row_offset_lt gnrow gncol i j hi hj)
  · intro pncol p hp
    simp only [mean_accesses, List.mem_flatMap, mem_descIdx, List.mem_cons, List.mem_singleton,
      List.not_mem_nil, or_false] at hp
    rcases hp with ⟨i, hi, rfl | rfl | rfl⟩ <;> simpa [rand2Len] using hi

/-- The descending loop from `3` visits `2, 1, 0`, the one from `0` nothing, and the
accesses of the diagonal single-row path at `ncol = 2` are the listed ones, all within
`cov` of length `4` and `g`, `out`, `cov_g` of length `2`. -/
theorem accesses_in_bounds_witness :
    descIdx 3 = [2, 1, 0] ∧ descIdx 0 = [] ∧
    g_a_vec_accesses 2 true
      = [(Arr.g, 1), (Arr.out, 1), (Arr.g, 0), (Arr.out, 0),
         (Arr.cov, 3), (Arr.g, 1), (Arr.cov_g, 1), (Arr.cov, 0), (Arr.g, 0), (Arr.cov_g, 0),
         (Arr.g, 1), (Arr.cov_g, 1), (Arr.g, 0), (Arr.cov_g, 0), (Arr.cov_g, 1), (Arr.out, 1),
         (Arr.g, 1), (Arr.cov_g, 1), (Arr.g, 0), (Arr.cov_g, 0), (Arr.cov_g, 0), (Arr.out, 0)] ∧
    (∀ p ∈ g_a_vec_accesses 2 true, p.2 < randLen 1 2 p.1) :=
  ⟨by rw [accesses_in_bounds.1]; rfl, rfl, by decide, accesses_in_bounds.2.1 2 true⟩

end Htnorm
